import Mathlib

/-!
A shallow embedding of `jaqs/research/signaldigger/multi_factor.py`.

Conventions used throughout:

* Machine floats are modelled by exact rationals `ℚ`; the non-finite float
  values (NaN and ±inf) are modelled by `none` in `Option ℚ`.
* A DataFrame of IC values is a list of rows in ascending date order, the
  date being the row position; a factor panel is an association list from
  date to an association list from asset to cell.
* A Python exception escaping a function is `Except.error ()`; in-place
  mutation of a caller's dict is modelled by returning the final state of
  the mapping next to the result.
* External collaborators (`sklearn.covariance.LedoitWolf`, the scipy
  orthogonalization routine, the `process`/`jutil`/`performance` helpers)
  are function parameters, as the spec treats them as capabilities.
-/

namespace MultiFactor

/-- One DataFrame cell; `none` models NaN / non-finite values. -/
abbrev Cell := Option ℚ

/-- One date's row of IC values across the factor columns. -/
abbrev Row := List Cell

/-- `ic_df`: rows in ascending date order (the date is the row position). -/
abbrev ICMatrix := List Row

/-- One row of a weight matrix: `none` (a row of NaNs) or a fully defined
weight list.  In the source a NaN raw entry makes `np.sum(weight)` NaN and
`weight / np.sum(weight)` then sets every entry NaN, so NaN-tainted rows are
all-or-nothing.  A ±inf raw entry (reachable in `ir_weight` through a
zero-std window column) instead gives an infinite sum and a partially
defined row in the source — NaN at the inf entry, 0.0 elsewhere; this
embedding collapses every non-finite value to `none`, so such rows are
modelled as fully undefined, and the `ir_weight` statements proved below
concern only windows that never reach that pathway (a fired guard, an empty
window, or an undefined std). -/
abbrev WRow := Option (List ℚ)

/-- `df.tail(n)`. -/
def tailN (n : Nat) (l : List α) : List α := l.drop (l.length - n)

/-- `ic_df[ic_df.index <= dt].tail(n)` where `dt` is row position `i`. -/
def windowAt (ic : ICMatrix) (n i : Nat) : List Row := tailN n (ic.take (i + 1))

/-- Arithmetic mean; only ever used on nonempty lists. -/
def meanQ (l : List ℚ) : ℚ := l.sum / l.length

/-- The defined observations of column `j` of a window (pandas `skipna`). -/
def colObs (w : List Row) (j : Nat) : List ℚ := w.filterMap (fun r => (r.get? j).join)

/-- pandas `DataFrame.mean(axis=0)` for column `j`: NaN on an empty column. -/
def colMean (w : List Row) (j : Nat) : Cell :=
  if (colObs w j).isEmpty then none else some (meanQ (colObs w j))

/-- `ic_dt.mean(axis=0)` across the `k` columns. -/
def colMeans (w : List Row) (k : Nat) : Row := (List.range k).map (colMean w)

/-- Collects a list of optional values; `none` as soon as one entry is NaN. -/
def optList : List (Option α) → Option (List α)
  | [] => some []
  | none :: _ => none
  | some a :: l => (optList l).map (a :: ·)

/-- `weight / np.sum(weight)`.  A zero sum puts non-finite values (±inf or
NaN) in every entry, i.e. an undefined row. -/
def normalizeVec (v : List ℚ) : WRow :=
  if v.sum = 0 then none else some (v.map (· / v.sum))

/-- Normalization of a possibly partially defined raw weight vector: any NaN
entry makes `np.sum(weight)` NaN and hence the whole assigned row NaN. -/
def normalizeRow (r : Row) : WRow :=
  match optList r with
  | none => none
  | some v => normalizeVec v

/-- `weight_df.shift(h)`: same length, first `h` rows NaN, row `i` holds the
pre-shift row `i - h`. -/
def shiftRows (h : Nat) (rows : List WRow) : List WRow :=
  (List.range rows.length).map (fun i => if i < h then none else rows.getD (i - h) none)

/-- The per-date loop body of `ic_weight` (the pre-shift row at position
`i`); `k` is the number of factor columns.  A window shorter than the
rollback period leaves the row NaN (`continue`). -/
def icPreRow (ic : ICMatrix) (k n i : Nat) : WRow :=
  if (windowAt ic n i).length < n then none else normalizeRow (colMeans (windowAt ic n i) k)

/-- `ic_weight(ic_df, holding_period, rollback_period)`. -/
def ic_weight (ic : ICMatrix) (k holding n : Nat) : List WRow :=
  shiftRows holding ((List.range ic.length).map (icPreRow ic k n))

/-- The raw per-column `mean/std` weight of `ir_weight`.  The pandas standard
deviation takes a square root and is not rational, so it is the collaborating
primitive `std` (pandas semantics: `none` on at most one observation since
ddof = 1).  A zero std makes the source's quotient ±inf (or NaN for a zero
mean); the `if s = 0 then none` branch collapses that non-finite value to
`none` like every other, which over-approximates: in the source the later
division by the then-infinite sum leaves the other columns 0.0 and only the
inf entry NaN (a partially defined row), whereas through `normalizeRow` the
collapsed entry renders the whole modelled row undefined.  The `ir_weight`
facts proved below therefore stay on windows where this branch is not
taken. -/
def irRaw (std : List ℚ → Option ℚ) (w : List Row) (k : Nat) : Row :=
  (List.range k).map (fun j =>
    match colMean w j, std (colObs w j) with
    | some m, some s => if s = 0 then none else some (m / s)
    | _, _ => none)

/-- The per-date loop body of `ir_weight` (the pre-shift row at position `i`). -/
def irPreRow (std : List ℚ → Option ℚ) (ic : ICMatrix) (k n i : Nat) : WRow :=
  if (windowAt ic n i).length < n then none
  else normalizeRow (irRaw std (windowAt ic n i) k)

/-- `ir_weight(ic_df, holding_period, rollback_period)`. -/
def ir_weight (std : List ℚ → Option ℚ) (ic : ICMatrix) (k holding n : Nat) : List WRow :=
  shiftRows holding ((List.range ic.length).map (irPreRow std ic k n))

/-- Sample covariance of two aligned observation lists (`np.cov`, ddof = 1). -/
def covPair (xs ys : List ℚ) : ℚ :=
  (List.zipWith (fun x y => (x - meanQ xs) * (y - meanQ ys)) xs ys).sum / ((xs.length : ℚ) - 1)

/-- Column `j` of a fully defined window, as plain rationals. -/
def colD (w : List (List ℚ)) (j : Nat) : List ℚ := w.map (fun r => r.getD j 0)

/-- `np.cov` over the window with variables as columns; with fewer than two
observations ddof = 1 produces a NaN matrix, modelled as `none`. -/
def sampleCov (k : Nat) (w : List (List ℚ)) : Option (Matrix (Fin k) (Fin k) ℚ) :=
  if w.length < 2 then none
  else some (Matrix.of fun a b => covPair (colD w a) (colD w b))

/-- `np.linalg.inv`: raises `LinAlgError` (modelled `none`) exactly on
singular input, otherwise the exact inverse. -/
def matInv {k : Nat} (A : Matrix (Fin k) (Fin k) ℚ) : Option (Matrix (Fin k) (Fin k) ℚ) :=
  if A.det = 0 then none else some (A.det⁻¹ • A.adjugate)

/-- Matrix–vector product, flattened back into a weight list. -/
def applyMat {k : Nat} (M : Matrix (Fin k) (Fin k) ℚ) (v : Fin k → ℚ) : List ℚ :=
  (List.finRange k).map (fun a => ∑ b, M a b * v b)

/-- The covariance estimation of the max-IR / max-IC schemes (source lines
185–191 and 232–238): with `"shrink"` a Ledoit–Wolf fit whose failure (the
bare `except`) falls back to the sample covariance; otherwise the sample
covariance directly.  `shrinkEst` is the external sklearn estimator, `none`
modelling a raised exception. -/
def covSelect {k : Nat} (shrinkEst : List (List ℚ) → Option (Matrix (Fin k) (Fin k) ℚ))
    (ctype : String) (w : List (List ℚ)) : Option (Matrix (Fin k) (Fin k) ℚ) :=
  if ctype = "shrink" then
    match shrinkEst w with
    | some C => some C
    | none => sampleCov k w
  else sampleCov k w

/-- The shared tail of the max-IR / max-IC loop bodies: invert the covariance
(an uncaught `LinAlgError` aborts the call), multiply the mean / IC vector
and normalize by the sum. -/
def weightFromCov {k : Nat} (C : Matrix (Fin k) (Fin k) ℚ) (v : Fin k → ℚ) : Except Unit WRow :=
  match matInv C with
  | none => Except.error ()
  | some I => Except.ok (normalizeVec (applyMat I v))

/-- `ic_dt.mean()` of a fully defined window, as a vector. -/
def meanVec (w : List (List ℚ)) (k : Nat) : Fin k → ℚ := fun j => meanQ (colD w j)

/-- The per-date loop body of `max_IR_weight`.  A too-short window leaves the
row NaN; a window containing NaN propagates a NaN covariance through a NaN
inverse into a NaN row (no exception is raised on a NaN matrix); a singular
covariance raises. -/
def maxIRstep {k : Nat} (shrinkEst : List (List ℚ) → Option (Matrix (Fin k) (Fin k) ℚ))
    (ctype : String) (ic : ICMatrix) (n i : Nat) : Except Unit WRow :=
  if (windowAt ic n i).length < n then Except.ok none
  else
    match optList ((windowAt ic n i).map optList) with
    | none => Except.ok none
    | some wd =>
      match covSelect shrinkEst ctype wd with
      | none => Except.ok none
      | some C => weightFromCov C (meanVec wd k)

/-- Runs a fallible step over a list, propagating the first raised error
(the Python loop aborts there). -/
def exceptMap (f : α → Except ε β) : List α → Except ε (List β)
  | [] => Except.ok []
  | a :: l =>
    match f a with
    | Except.error e => Except.error e
    | Except.ok b =>
      match exceptMap f l with
      | Except.error e => Except.error e
      | Except.ok bs => Except.ok (b :: bs)

/-- `max_IR_weight(ic_df, holding_period, rollback_period, covariance_type)`. -/
def max_IR_weight {k : Nat} (shrinkEst : List (List ℚ) → Option (Matrix (Fin k) (Fin k) ℚ))
    (ctype : String) (ic : ICMatrix) (holding n : Nat) : Except Unit (List WRow) :=
  (exceptMap (maxIRstep shrinkEst ctype ic n) (List.range ic.length)).map (shiftRows holding)

/-- The per-date loop body of `max_IC_weight`.  `factorsAt i` is the aligned
per-asset cross-section `pd.concat([factors_dict[f].loc[dt] for f in
ic_df.columns], axis=1)` at date position `i` (one row per asset, one cell
per factor, `none` where the asset is missing from a factor); `.dropna()`
keeps the fully defined asset rows and an empty result skips the date. -/
def maxICstep {k : Nat} (shrinkEst : List (List ℚ) → Option (Matrix (Fin k) (Fin k) ℚ))
    (ctype : String) (factorsAt : Nat → List Row) (ic : ICMatrix) (i : Nat) : Except Unit WRow :=
  if ((factorsAt i).filterMap optList).length = 0 then Except.ok none
  else
    match covSelect shrinkEst ctype ((factorsAt i).filterMap optList) with
    | none => Except.ok none
    | some C =>
      match matInv C with
      | none => Except.error ()
      | some I =>
        match optList (ic.getD i []) with
        | none => Except.ok none
        | some icr => Except.ok (normalizeVec (applyMat I (fun j => icr.getD j 0)))

/-- `max_IC_weight(ic_df, factors_dict, holding_period, covariance_type)`. -/
def max_IC_weight {k : Nat} (shrinkEst : List (List ℚ) → Option (Matrix (Fin k) (Fin k) ℚ))
    (ctype : String) (factorsAt : Nat → List Row) (ic : ICMatrix) (holding : Nat) :
    Except Unit (List WRow) :=
  (exceptMap (maxICstep shrinkEst ctype factorsAt ic) (List.range ic.length)).map
    (shiftRows holding)

/- ### Helper lemmas -/

theorem sum_map_div (l : List ℚ) (s : ℚ) : (l.map (· / s)).sum = l.sum / s := by
  induction l with
  | nil => simp
  | cons a t ih => simp [ih, add_div]

theorem normalizeVec_sum {v ws : List ℚ} (h : normalizeVec v = some ws) : ws.sum = 1 := by
  unfold normalizeVec at h
  by_cases hs : v.sum = 0
  · simp [hs] at h
  · simp only [hs, if_false, Option.some.injEq] at h
    subst h
    rw [sum_map_div]
    exact div_self hs

theorem normalizeRow_sum {r : Row} {ws : List ℚ} (h : normalizeRow r = some ws) : ws.sum = 1 := by
  unfold normalizeRow at h
  cases hv : optList r with
  | none => rw [hv] at h; exact absurd h (by simp)
  | some v => rw [hv] at h; exact normalizeVec_sum h

theorem shiftRows_length (h : Nat) (rows : List WRow) :
    (shiftRows h rows).length = rows.length := by
  simp [shiftRows]

theorem shiftRows_get_lt {h : Nat} {rows : List WRow} {i : Nat}
    (hlen : i < rows.length) (hi : i < h) : (shiftRows h rows)[i]? = some none := by
  unfold shiftRows
  simp [List.getElem?_range, hlen, hi]

theorem shiftRows_get_ge {h : Nat} {rows : List WRow} {i : Nat}
    (hlen : i < rows.length) (hi : h ≤ i) :
    (shiftRows h rows)[i]? = some (rows.getD (i - h) none) := by
  unfold shiftRows
  simp [List.getElem?_range, hlen, Nat.not_lt.mpr hi]

theorem shiftRows_get_some {h : Nat} {rows : List WRow} {i : Nat} {ws : List ℚ}
    (hget : (shiftRows h rows)[i]? = some (some ws)) : some ws ∈ rows := by
  unfold shiftRows at hget
  rw [List.getElem?_map] at hget
  by_cases hlen : i < rows.length
  · rw [List.getElem?_range hlen] at hget
    simp only [Option.map_some'] at hget
    have hval : (if i < h then (none : WRow) else rows.getD (i - h) none) = some ws :=
      Option.some.inj hget
    by_cases hj : i < h
    · simp [hj] at hval
    · simp only [hj, if_false] at hval
      by_cases hjh : i - h < rows.length
      · rw [List.getD_eq_getElem _ _ hjh] at hval
        exact hval ▸ List.getElem_mem hjh
      · rw [List.getD_eq_default _ _ (Nat.le_of_not_lt hjh)] at hval
        exact absurd hval (by simp)
  · rw [List.getElem?_eq_none (by simpa using Nat.le_of_not_lt hlen)] at hget
    exact absurd hget (by simp)

theorem exceptMap_ok_mem {f : α → Except ε β} :
    ∀ {l : List α} {out : List β}, exceptMap f l = Except.ok out →
      ∀ b ∈ out, ∃ a ∈ l, f a = Except.ok b := by
  intro l
  induction l with
  | nil =>
    intro out hmap b hb
    simp only [exceptMap] at hmap
    cases hmap
    simp at hb
  | cons a t ih =>
    intro out hmap b hb
    simp only [exceptMap] at hmap
    cases hfa : f a with
    | error e => rw [hfa] at hmap; exact absurd hmap (by simp)
    | ok v =>
      rw [hfa] at hmap
      cases ht : exceptMap f t with
      | error e => rw [ht] at hmap; exact absurd hmap (by simp)
      | ok vs =>
        rw [ht] at hmap
        simp only [Except.ok.injEq] at hmap
        subst hmap
        rcases List.mem_cons.mp hb with hb | hb
        · exact ⟨a, List.mem_cons_self a t, hb ▸ hfa⟩
        · obtain ⟨a0, ha0, hfa0⟩ := ih ht b hb
          exact ⟨a0, List.mem_cons_of_mem a ha0, hfa0⟩

theorem exceptMap_error_of_mem {f : α → Except Unit β} :
    ∀ {l : List α}, (∃ a ∈ l, f a = Except.error ()) → exceptMap f l = Except.error () := by
  intro l
  induction l with
  | nil => rintro ⟨a, ha, _⟩; simp at ha
  | cons a t ih =>
    rintro ⟨a0, ha0, herr⟩
    simp only [exceptMap]
    cases hfa : f a with
    | error e => rfl
    | ok v =>
      rcases List.mem_cons.mp ha0 with rfl | ha0
      · rw [hfa] at herr; exact absurd herr (by simp)
      · rw [ih ⟨a0, ha0, herr⟩]

theorem exceptMap_congr {f g : α → Except ε β} :
    ∀ {l : List α}, (∀ a ∈ l, f a = g a) → exceptMap f l = exceptMap g l := by
  intro l
  induction l with
  | nil => intro _; rfl
  | cons a t ih =>
    intro hfg
    simp only [exceptMap]
    rw [hfg a (List.mem_cons_self a t), ih (fun x hx => hfg x (List.mem_cons_of_mem a hx))]

theorem maxIRstep_ok_some {k : Nat}
    {shrinkEst : List (List ℚ) → Option (Matrix (Fin k) (Fin k) ℚ)}
    {ctype : String} {ic : ICMatrix} {n i : Nat} {ws : List ℚ}
    (h : maxIRstep shrinkEst ctype ic n i = Except.ok (some ws)) :
    ∃ v : List ℚ, normalizeVec v = some ws := by
  unfold maxIRstep at h
  by_cases hg : (windowAt ic n i).length < n
  · rw [if_pos hg] at h
    exact absurd h (by simp)
  · rw [if_neg hg] at h
    cases hw : optList ((windowAt ic n i).map optList) with
    | none =>
      rw [hw] at h
      replace h : (Except.ok none : Except Unit WRow) = Except.ok (some ws) := h
      exact absurd h (by simp)
    | some wd =>
      rw [hw] at h
      replace h : (match covSelect shrinkEst ctype wd with
          | none => (Except.ok none : Except Unit WRow)
          | some C => weightFromCov C (meanVec wd k)) = Except.ok (some ws) := h
      cases hc : covSelect shrinkEst ctype wd with
      | none =>
        rw [hc] at h
        replace h : (Except.ok none : Except Unit WRow) = Except.ok (some ws) := h
        exact absurd h (by simp)
      | some C =>
        rw [hc] at h
        replace h : weightFromCov C (meanVec wd k) = Except.ok (some ws) := h
        unfold weightFromCov at h
        cases hI : matInv C with
        | none =>
          rw [hI] at h
          replace h : (Except.error () : Except Unit WRow) = Except.ok (some ws) := h
          exact absurd h (by simp)
        | some I =>
          rw [hI] at h
          replace h : (Except.ok (normalizeVec (applyMat I (meanVec wd k))) :
              Except Unit WRow) = Except.ok (some ws) := h
          exact ⟨_, Except.ok.inj h⟩

theorem maxICstep_ok_some {k : Nat}
    {shrinkEst : List (List ℚ) → Option (Matrix (Fin k) (Fin k) ℚ)}
    {ctype : String} {factorsAt : Nat → List Row} {ic : ICMatrix} {i : Nat} {ws : List ℚ}
    (h : maxICstep shrinkEst ctype factorsAt ic i = Except.ok (some ws)) :
    ∃ v : List ℚ, normalizeVec v = some ws := by
  unfold maxICstep at h
  by_cases hg : ((factorsAt i).filterMap optList).length = 0
  · rw [if_pos hg] at h
    exact absurd h (by simp)
  · rw [if_neg hg] at h
    cases hc : covSelect shrinkEst ctype ((factorsAt i).filterMap optList) with
    | none =>
      rw [hc] at h
      replace h : (Except.ok none : Except Unit WRow) = Except.ok (some ws) := h
      exact absurd h (by simp)
    | some C =>
      rw [hc] at h
      replace h : (match matInv C with
          | none => (Except.error () : Except Unit WRow)
          | some I =>
            match optList (ic.getD i []) with
            | none => Except.ok none
            | some icr => Except.ok (normalizeVec (applyMat I (fun j => icr.getD j 0)))) =
          Except.ok (some ws) := h
      cases hI : matInv C with
      | none =>
        rw [hI] at h
        replace h : (Except.error () : Except Unit WRow) = Except.ok (some ws) := h
        exact absurd h (by simp)
      | some I =>
        rw [hI] at h
        replace h : (match optList (ic.getD i []) with
            | none => (Except.ok none : Except Unit WRow)
            | some icr => Except.ok (normalizeVec (applyMat I (fun j => icr.getD j 0)))) =
            Except.ok (some ws) := h
        cases hicr : optList (ic.getD i []) with
        | none =>
          rw [hicr] at h
          replace h : (Except.ok none : Except Unit WRow) = Except.ok (some ws) := h
          exact absurd h (by simp)
        | some icr =>
          rw [hicr] at h
          replace h : (Except.ok (normalizeVec (applyMat I (fun j => icr.getD j 0))) :
              Except Unit WRow) = Except.ok (some ws) := h
          exact ⟨_, Except.ok.inj h⟩

theorem icPreRow_some {ic : ICMatrix} {k n j : Nat} {ws : List ℚ}
    (h : icPreRow ic k n j = some ws) : ws.sum = 1 := by
  unfold icPreRow at h
  by_cases hg : (windowAt ic n j).length < n
  · rw [if_pos hg] at h
    exact absurd h (by simp)
  · rw [if_neg hg] at h
    exact normalizeRow_sum h

theorem irPreRow_some {std : List ℚ → Option ℚ} {ic : ICMatrix} {k n j : Nat} {ws : List ℚ}
    (h : irPreRow std ic k n j = some ws) : ws.sum = 1 := by
  unfold irPreRow at h
  by_cases hg : (windowAt ic n j).length < n
  · rw [if_pos hg] at h
    exact absurd h (by simp)
  · rw [if_neg hg] at h
    exact normalizeRow_sum h

theorem except_map_ok {f : List WRow → List WRow} {e : Except Unit (List WRow)}
    {out : List WRow} (h : Except.map f e = Except.ok out) :
    ∃ rows, e = Except.ok rows ∧ out = f rows := by
  cases e with
  | error v => exact absurd h (by simp [Except.map])
  | ok rows =>
    refine ⟨rows, rfl, ?_⟩
    simpa [Except.map] using h.symm

theorem optList_eq_none {l : List (Option α)} (h : ∃ c ∈ l, c = none) : optList l = none := by
  induction l with
  | nil => obtain ⟨c, hc, _⟩ := h; simp at hc
  | cons a t ih =>
    obtain ⟨c, hc, hcn⟩ := h
    rcases List.mem_cons.mp hc with rfl | hct
    · subst hcn; rfl
    · cases a with
      | none => rfl
      | some v => simp [optList, ih ⟨c, hct, hcn⟩]

theorem normalizeRow_of_all_none {r : Row} (h : ∀ c ∈ r, c = none) : normalizeRow r = none := by
  cases r with
  | nil => simp [normalizeRow, optList, normalizeVec]
  | cons a t =>
    unfold normalizeRow
    rw [optList_eq_none ⟨a, List.mem_cons_self a t, h a (List.mem_cons_self a t)⟩]

theorem take_succ_drop {l : List α} {i : Nat} {a : α} (h : l[i]? = some a) :
    (l.take (i + 1)).drop i = [a] := by
  induction l generalizing i with
  | nil => simp at h
  | cons x xs ih =>
    cases i with
    | zero => simp at h; simp [h]
    | succ m =>
      simp only [List.getElem?_cons_succ] at h
      simpa [List.take_succ_cons, List.drop_succ_cons] using ih h

theorem windowAt_one {ic : ICMatrix} {i : Nat} {r : Row} (h : ic[i]? = some r) :
    windowAt ic 1 i = [r] := by
  have hi : i < ic.length := by
    by_contra hge
    rw [List.getElem?_eq_none (Nat.le_of_not_lt hge)] at h
    exact absurd h (by simp)
  have ht : (ic.take (i + 1)).length = i + 1 := by
    rw [List.length_take]
    omega
  unfold windowAt tailN
  rw [ht]
  simpa using take_succ_drop h

theorem colMeans_single {r : Row} {k : Nat} (hlen : r.length = k)
    (hdef : ∀ c ∈ r, c.isSome) : colMeans [r] k = r := by
  apply List.ext_getElem?
  intro j
  by_cases hj : j < k
  · have hcol : (colMeans [r] k)[j]? = some (colMean [r] j) := by
      unfold colMeans
      rw [List.getElem?_map, List.getElem?_range hj]
      rfl
    have hrj : ∃ c, r[j]? = some c := by
      rw [← hlen] at hj
      exact ⟨r[j], List.getElem?_eq_getElem hj⟩
    obtain ⟨c, hc⟩ := hrj
    have hcs : c.isSome := hdef c (List.getElem?_mem hc)
    obtain ⟨v, rfl⟩ := Option.isSome_iff_exists.mp hcs
    have hobs : colObs [r] j = [v] := by
      unfold colObs
      simp [List.filterMap_cons, hc]
    rw [hcol, hc, colMean, hobs]
    simp [meanQ]
  · have h1 : (colMeans [r] k)[j]? = none := by
      apply List.getElem?_eq_none
      simp [colMeans, Nat.le_of_not_lt hj]
    have h2 : r[j]? = none := by
      apply List.getElem?_eq_none
      rw [hlen]
      exact Nat.le_of_not_lt hj
    rw [h1, h2]

/- ### C1 -/

/-- C1: for each of the four weight schemes (`ic_weight`, `ir_weight`,
`max_IR_weight`, `max_IC_weight`), every output row of the returned weight
matrix whose entries are all defined sums to exactly 1, because the
normalization is always `w / sum(w)` and never `w / sum(|w|)`.  The final
conjunct exhibits a fully defined output row `[2, -1]` containing a negative
weight, so negative weights and sign inversions are permitted (an abs-sum
normalization would have produced `[2/3, -1/3]` there instead). -/
theorem C1_rows_sum_to_one :
    (∀ (ic : ICMatrix) (k holding n i : Nat) (ws : List ℚ),
        (ic_weight ic k holding n)[i]? = some (some ws) → ws.sum = 1)
  ∧ (∀ (std : List ℚ → Option ℚ) (ic : ICMatrix) (k holding n i : Nat) (ws : List ℚ),
        (ir_weight std ic k holding n)[i]? = some (some ws) → ws.sum = 1)
  ∧ (∀ (k : Nat) (sE : List (List ℚ) → Option (Matrix (Fin k) (Fin k) ℚ)) (ct : String)
        (ic : ICMatrix) (holding n i : Nat) (out : List WRow) (ws : List ℚ),
        max_IR_weight sE ct ic holding n = Except.ok out →
        out[i]? = some (some ws) → ws.sum = 1)
  ∧ (∀ (k : Nat) (sE : List (List ℚ) → Option (Matrix (Fin k) (Fin k) ℚ)) (ct : String)
        (fAt : Nat → List Row) (ic : ICMatrix) (holding i : Nat) (out : List WRow) (ws : List ℚ),
        max_IC_weight sE ct fAt ic holding = Except.ok out →
        out[i]? = some (some ws) → ws.sum = 1)
  ∧ ic_weight [[some 3, some (-(3 : ℚ)/2)]] 2 0 1 = [some [2, -1]] := by
  refine ⟨?_, ?_, ?_, ?_, by
    norm_num [ic_weight, shiftRows, icPreRow, windowAt, tailN, colMeans, colMean, colObs,
      meanQ, normalizeRow, normalizeVec, optList, List.range_succ, List.filterMap_cons]⟩
  · intro ic k holding n i ws hget
    obtain ⟨j, _, hj⟩ := List.mem_map.mp (shiftRows_get_some hget)
    exact icPreRow_some hj
  · intro std ic k holding n i ws hget
    obtain ⟨j, _, hj⟩ := List.mem_map.mp (shiftRows_get_some hget)
    exact irPreRow_some hj
  · intro k sE ct ic holding n i out ws hok hget
    obtain ⟨rows, hrows, hout⟩ := except_map_ok hok
    rw [hout] at hget
    obtain ⟨j, _, hj⟩ := exceptMap_ok_mem hrows (some ws) (shiftRows_get_some hget)
    obtain ⟨v, hv⟩ := maxIRstep_ok_some hj
    exact normalizeVec_sum hv
  · intro k sE ct fAt ic holding i out ws hok hget
    obtain ⟨rows, hrows, hout⟩ := except_map_ok hok
    rw [hout] at hget
    obtain ⟨j, _, hj⟩ := exceptMap_ok_mem hrows (some ws) (shiftRows_get_some hget)
    obtain ⟨v, hv⟩ := maxICstep_ok_some hj
    exact normalizeVec_sum hv

/-- Witness for C1: the concrete output row `[2, -1]` produced by
`ic_weight` on a one-date, two-factor IC matrix sums to 1. -/
theorem C1_rows_sum_to_one_witness : (([2, -1] : List ℚ)).sum = 1 :=
  C1_rows_sum_to_one.1 [[some 3, some (-(3 : ℚ)/2)]] 2 0 1 0 [2, -1] (by
    norm_num [ic_weight, shiftRows, icPreRow, windowAt, tailN, colMeans, colMean, colObs,
      meanQ, normalizeRow, normalizeVec, optList, List.range_succ, List.filterMap_cons])

/- ### C2 -/

/-- C2: for every weight scheme and every `holding_period`, the returned
weight matrix is the per-date computed rows shifted down by `holding_period`
rows: the shift preserves the number of rows, its first `holding_period`
rows are undefined (NaN), its row `i` is the pre-shift row `i -
holding_period`, and each of the four schemes returns exactly such a shift
of its per-date loop results. -/
theorem C2_shift_contract :
    (∀ (holding : Nat) (rows : List WRow), (shiftRows holding rows).length = rows.length)
  ∧ (∀ (holding : Nat) (rows : List WRow) (i : Nat), i < rows.length → i < holding →
        (shiftRows holding rows)[i]? = some none)
  ∧ (∀ (holding : Nat) (rows : List WRow) (i : Nat), i < rows.length → holding ≤ i →
        (shiftRows holding rows)[i]? = some (rows.getD (i - holding) none))
  ∧ (∀ (ic : ICMatrix) (k holding n : Nat), ic_weight ic k holding n
        = shiftRows holding ((List.range ic.length).map (icPreRow ic k n)))
  ∧ (∀ (std : List ℚ → Option ℚ) (ic : ICMatrix) (k holding n : Nat),
        ir_weight std ic k holding n
          = shiftRows holding ((List.range ic.length).map (irPreRow std ic k n)))
  ∧ (∀ (k : Nat) (sE : List (List ℚ) → Option (Matrix (Fin k) (Fin k) ℚ)) (ct : String)
        (ic : ICMatrix) (holding n : Nat), max_IR_weight sE ct ic holding n
          = (exceptMap (maxIRstep sE ct ic n) (List.range ic.length)).map (shiftRows holding))
  ∧ (∀ (k : Nat) (sE : List (List ℚ) → Option (Matrix (Fin k) (Fin k) ℚ)) (ct : String)
        (fAt : Nat → List Row) (ic : ICMatrix) (holding : Nat), max_IC_weight sE ct fAt ic holding
          = (exceptMap (maxICstep sE ct fAt ic) (List.range ic.length)).map (shiftRows holding)) :=
  ⟨shiftRows_length,
   fun _ _ _ ha hb => shiftRows_get_lt ha hb,
   fun _ _ _ ha hb => shiftRows_get_ge ha hb,
   fun _ _ _ _ => rfl,
   fun _ _ _ _ _ => rfl,
   fun _ _ _ _ _ _ => rfl,
   fun _ _ _ _ _ _ => rfl⟩

/-- Witness for C2: on a three-row weight list shifted by 2, row 1 is NaN
and row 2 holds pre-shift row 0. -/
theorem C2_shift_contract_witness :
    (shiftRows 2 [some [(1 : ℚ)], some [2], some [3]])[1]? = some none
    ∧ (shiftRows 2 [some [(1 : ℚ)], some [2], some [3]])[2]? = some (some [1]) :=
  ⟨C2_shift_contract.2.1 2 [some [(1 : ℚ)], some [2], some [3]] 1 (by decide) (by decide),
   C2_shift_contract.2.2.1 2 [some [(1 : ℚ)], some [2], some [3]] 2 (by decide) (by decide)⟩

/- ### C3 -/

/-- C3 counterexample: with covariance type `"simple"` and a window of two
identical IC rows, the sample covariance is the singular 1×1 matrix `[[0]]`;
`np.linalg.inv` raises an uncaught `LinAlgError`, so `max_IR_weight` aborts
with an error and returns no weight matrix at all — contrary to the claim
that the singular date's row is merely "left undefined in the output" (which
would require an `Except.ok` result with a `none` row). -/
theorem C3_counterexample :
    max_IR_weight (fun _ => (none : Option (Matrix (Fin 1) (Fin 1) ℚ))) "simple"
      [[some 1], [some 1]] 0 2 = Except.error () := by
  have hcp : covPair (colD [[1], [1]] 0) (colD [[1], [1]] 0) = 0 := by
    norm_num [covPair, colD, meanQ]
  norm_num [max_IR_weight, exceptMap, maxIRstep, windowAt, tailN, optList, covSelect,
    sampleCov, weightFromCov, matInv, hcp, List.range_succ, Except.map]

/-- C3 (amended): a singular covariance matrix on a given date is not
recovered, but the uncaught inversion error aborts the entire call: in both
`max_IR_weight` and `max_IC_weight` an erroring date makes the whole function
raise (first two conjuncts lift a per-date error to the call; the last two
show that a reachable date whose selected covariance has determinant zero
errors), so no weight matrix — and in particular no undefined row — is
returned at all. -/
theorem C3_singular_aborts :
    (∀ (k : Nat) (sE : List (List ℚ) → Option (Matrix (Fin k) (Fin k) ℚ)) (ct : String)
        (ic : ICMatrix) (holding n i : Nat), i < ic.length →
        maxIRstep sE ct ic n i = Except.error () →
        max_IR_weight sE ct ic holding n = Except.error ())
  ∧ (∀ (k : Nat) (sE : List (List ℚ) → Option (Matrix (Fin k) (Fin k) ℚ)) (ct : String)
        (fAt : Nat → List Row) (ic : ICMatrix) (holding i : Nat), i < ic.length →
        maxICstep sE ct fAt ic i = Except.error () →
        max_IC_weight sE ct fAt ic holding = Except.error ())
  ∧ (∀ (k : Nat) (sE : List (List ℚ) → Option (Matrix (Fin k) (Fin k) ℚ)) (ct : String)
        (ic : ICMatrix) (n i : Nat) (wd : List (List ℚ)) (C : Matrix (Fin k) (Fin k) ℚ),
        ¬ (windowAt ic n i).length < n →
        optList ((windowAt ic n i).map optList) = some wd →
        covSelect sE ct wd = some C → C.det = 0 →
        maxIRstep sE ct ic n i = Except.error ())
  ∧ (∀ (k : Nat) (sE : List (List ℚ) → Option (Matrix (Fin k) (Fin k) ℚ)) (ct : String)
        (fAt : Nat → List Row) (ic : ICMatrix) (i : Nat) (C : Matrix (Fin k) (Fin k) ℚ),
        ¬ ((fAt i).filterMap optList).length = 0 →
        covSelect sE ct ((fAt i).filterMap optList) = some C → C.det = 0 →
        maxICstep sE ct fAt ic i = Except.error ()) := by
  refine ⟨?_, ?_, ?_, ?_⟩
  · intro k sE ct ic holding n i hi herr
    unfold max_IR_weight
    rw [exceptMap_error_of_mem ⟨i, List.mem_range.mpr hi, herr⟩]
    rfl
  · intro k sE ct fAt ic holding i hi herr
    unfold max_IC_weight
    rw [exceptMap_error_of_mem ⟨i, List.mem_range.mpr hi, herr⟩]
    rfl
  · intro k sE ct ic n i wd C hg hw hc hdet
    unfold maxIRstep
    rw [if_neg hg, hw]
    show (match covSelect sE ct wd with
        | none => (Except.ok none : Except Unit WRow)
        | some C => weightFromCov C (meanVec wd k)) = Except.error ()
    rw [hc]
    show weightFromCov C (meanVec wd k) = Except.error ()
    unfold weightFromCov matInv
    rw [if_pos hdet]
  · intro k sE ct fAt ic i C hg hc hdet
    unfold maxICstep
    rw [if_neg hg, hc]
    show (match matInv C with
        | none => (Except.error () : Except Unit WRow)
        | some I =>
          match optList (ic.getD i []) with
          | none => Except.ok none
          | some icr => Except.ok (normalizeVec (applyMat I (fun j => icr.getD j 0)))) =
        Except.error ()
    unfold matInv
    rw [if_pos hdet]

/-- Witness for C3 (amended) at a concrete input: the two-identical-row IC
matrix with the singular 1×1 sample covariance makes the whole
`max_IR_weight` call error. -/
theorem C3_singular_aborts_witness :
    max_IR_weight (fun _ => (none : Option (Matrix (Fin 1) (Fin 1) ℚ))) "simple"
      [[some 1], [some 1]] 4 2 = Except.error () := by
  have hdet : (Matrix.of fun a b : Fin 1 =>
      covPair (colD [[1], [1]] a) (colD [[1], [1]] b)).det = 0 := by
    rw [Matrix.det_fin_one]
    norm_num [Matrix.of_apply, covPair, colD, meanQ]
  exact C3_singular_aborts.1 1 _ "simple" _ 4 2 1 (by decide)
    (C3_singular_aborts.2.2.1 1 _ "simple" _ 2 1 [[1], [1]] _ (by decide) rfl rfl hdet)

/- ### C4 -/

/-- C4 counterexample: with `rollback_period = 0` the guard `len(ic_dt) < 0`
never fires but the window is empty, so the mean is NaN and every pre-shift
row is undefined: on a two-date IC matrix with defined values and
`holding_period = 0`, the output row at date 1 — a date with a prior IC
observation at date 0 — is undefined, contradicting the claim that a weight
row is produced for every date with at least one prior observation. -/
theorem C4_counterexample :
    (ic_weight [[some (1 : ℚ)], [some 1]] 1 0 0)[1]? = some none := by
  norm_num [ic_weight, shiftRows, icPreRow, windowAt, tailN, colMeans, colMean, colObs,
    meanQ, normalizeRow, normalizeVec, optList, List.range_succ, List.filterMap_cons]

/-- C4 (amended): the windowing of `ic_weight` / `ir_weight` counts index
rows, defined or not.  (1–2) with `rollback_period = n` the first `n - 1`
index positions give entirely undefined pre-shift rows — so no partial
weight is emitted for a date with insufficient history, whose row the guard
leaves untouched; (3–4) with `rollback_period = 0` the guard never fires but
the window is empty, so every pre-shift row is undefined; (5–6) with
`rollback_period = 1` the window is exactly the date's own row, so
`ic_weight` produces a weight row precisely when that row is fully defined
with nonzero sum; (7) `ir_weight` with `rollback_period = 1` leaves every
pre-shift row undefined, because the ddof-1 standard deviation of a single
observation is undefined. -/
theorem C4_window_guard :
    (∀ (ic : ICMatrix) (k n i : Nat), i < ic.length → i + 1 < n → icPreRow ic k n i = none)
  ∧ (∀ (std : List ℚ → Option ℚ) (ic : ICMatrix) (k n i : Nat), i < ic.length → i + 1 < n →
      irPreRow std ic k n i = none)
  ∧ (∀ (ic : ICMatrix) (k i : Nat), icPreRow ic k 0 i = none)
  ∧ (∀ (std : List ℚ → Option ℚ) (ic : ICMatrix) (k i : Nat), irPreRow std ic k 0 i = none)
  ∧ (∀ (ic : ICMatrix) (k i : Nat) (r : Row), ic[i]? = some r →
      icPreRow ic k 1 i = normalizeRow (colMeans [r] k))
  ∧ (∀ (r : Row) (k : Nat), r.length = k → (∀ c ∈ r, c.isSome) → colMeans [r] k = r)
  ∧ (∀ (std : List ℚ → Option ℚ) (ic : ICMatrix) (k i : Nat),
      (∀ l : List ℚ, l.length ≤ 1 → std l = none) → irPreRow std ic k 1 i = none) := by
  have hwinlen : ∀ (ic : ICMatrix) (n i : Nat), i < ic.length →
      (windowAt ic n i).length = min n (i + 1) := by
    intro ic n i hi
    have ht : (ic.take (i + 1)).length = i + 1 := by
      rw [List.length_take]
      omega
    unfold windowAt tailN
    rw [List.length_drop, ht]
    omega
  have hwin0 : ∀ (ic : ICMatrix) (i : Nat), windowAt ic 0 i = [] := by
    intro ic i
    unfold windowAt tailN
    simp
  have hempty : ∀ k : Nat, normalizeRow (colMeans [] k) = none := by
    intro k
    cases k with
    | zero => simp [colMeans, normalizeRow, optList, normalizeVec]
    | succ m =>
      apply normalizeRow_of_all_none
      intro c hc
      obtain ⟨j, _, hj⟩ := List.mem_map.mp hc
      simp [colMean, colObs] at hj
      exact hj.symm
  refine ⟨?_, ?_, ?_, ?_, ?_, fun r k h1 h2 => colMeans_single h1 h2, ?_⟩
  · intro ic k n i hi hn
    unfold icPreRow
    rw [if_pos (by rw [hwinlen ic n i hi]; omega)]
  · intro std ic k n i hi hn
    unfold irPreRow
    rw [if_pos (by rw [hwinlen ic n i hi]; omega)]
  · intro ic k i
    unfold icPreRow
    rw [if_neg (by simp [hwin0]), hwin0]
    exact hempty k
  · intro std ic k i
    unfold irPreRow
    rw [if_neg (by simp [hwin0]), hwin0]
    cases k with
    | zero => simp [irRaw, normalizeRow, optList, normalizeVec]
    | succ m =>
      apply normalizeRow_of_all_none
      intro c hc
      obtain ⟨j, _, hj⟩ := List.mem_map.mp hc
      rw [show colMean [] j = none by simp [colMean, colObs]] at hj
      exact hj.symm
  · intro ic k i r hr
    unfold icPreRow
    rw [windowAt_one hr]
    rw [if_neg (by simp)]
  · intro std ic k i hstd
    unfold irPreRow
    by_cases hg : (windowAt ic 1 i).length < 1
    · rw [if_pos hg]
    · rw [if_neg hg]
      apply normalizeRow_of_all_none
      intro c hc
      obtain ⟨j, _, hj⟩ := List.mem_map.mp hc
      have hobs : std (colObs (windowAt ic 1 i) j) = none := by
        apply hstd
        have hle : (windowAt ic 1 i).length ≤ 1 := by
          unfold windowAt tailN
          rw [List.length_drop]
          omega
        calc (colObs (windowAt ic 1 i) j).length
            ≤ (windowAt ic 1 i).length := List.length_filterMap_le _ _
          _ ≤ 1 := hle
      rw [hobs] at hj
      cases hcm : colMean (windowAt ic 1 i) j with
      | none => rw [hcm] at hj; exact hj.symm
      | some m => rw [hcm] at hj; exact hj.symm

/-- Witness for C4 (amended) at concrete inputs: with `rollback_period = 3`
the pre-shift row at position 0 of a two-row IC matrix is undefined, and
with `rollback_period = 0` it is undefined as well. -/
theorem C4_window_guard_witness :
    icPreRow [[some (1 : ℚ)], [some 1]] 1 3 0 = none
    ∧ icPreRow [[some (1 : ℚ)], [some 1]] 1 0 0 = none :=
  ⟨C4_window_guard.1 [[some (1 : ℚ)], [some 1]] 1 3 0 (by decide) (by decide),
   C4_window_guard.2.2.1 [[some (1 : ℚ)], [some 1]] 1 0⟩

/- ### C8 -/

theorem covSelect_simple {k : Nat} (sE : List (List ℚ) → Option (Matrix (Fin k) (Fin k) ℚ))
    (w : List (List ℚ)) : covSelect sE "simple" w = sampleCov k w := by
  unfold covSelect
  rw [if_neg (by decide)]

theorem covSelect_shrink_fail {k : Nat}
    {sE : List (List ℚ) → Option (Matrix (Fin k) (Fin k) ℚ)} {w : List (List ℚ)}
    (h : sE w = none) : covSelect sE "shrink" w = sampleCov k w := by
  unfold covSelect
  rw [if_pos rfl, h]

theorem covSelect_shrink_ok {k : Nat}
    {sE : List (List ℚ) → Option (Matrix (Fin k) (Fin k) ℚ)} {w : List (List ℚ)}
    {C : Matrix (Fin k) (Fin k) ℚ} (h : sE w = some C) : covSelect sE "shrink" w = some C := by
  unfold covSelect
  rw [if_pos rfl, h]

theorem maxIRstep_cov_congr {k : Nat}
    {sE sE2 : List (List ℚ) → Option (Matrix (Fin k) (Fin k) ℚ)} {ct ct2 : String}
    (h : ∀ w, covSelect sE ct w = covSelect sE2 ct2 w) (ic : ICMatrix) (n i : Nat) :
    maxIRstep sE ct ic n i = maxIRstep sE2 ct2 ic n i := by
  unfold maxIRstep
  by_cases hg : (windowAt ic n i).length < n
  · rw [if_pos hg, if_pos hg]
  · rw [if_neg hg, if_neg hg]
    cases hw : optList ((windowAt ic n i).map optList) with
    | none => rfl
    | some wd =>
      show (match covSelect sE ct wd with
          | none => (Except.ok none : Except Unit WRow)
          | some C => weightFromCov C (meanVec wd k)) =
        (match covSelect sE2 ct2 wd with
          | none => Except.ok none
          | some C => weightFromCov C (meanVec wd k))
      rw [h wd]

theorem maxICstep_cov_congr {k : Nat}
    {sE sE2 : List (List ℚ) → Option (Matrix (Fin k) (Fin k) ℚ)} {ct ct2 : String}
    (h : ∀ w, covSelect sE ct w = covSelect sE2 ct2 w) (fAt : Nat → List Row)
    (ic : ICMatrix) (i : Nat) :
    maxICstep sE ct fAt ic i = maxICstep sE2 ct2 fAt ic i := by
  unfold maxICstep
  by_cases hg : ((fAt i).filterMap optList).length = 0
  · rw [if_pos hg, if_pos hg]
  · rw [if_neg hg, if_neg hg, h ((fAt i).filterMap optList)]

/-- C8: covariance estimation in `max_IR_weight` / `max_IC_weight`.
(1–2) with covariance type `"simple"` the shrink estimator is never
consulted — the output does not depend on it; (3–4) with `"shrink"` and an
estimator that fails (raises) on every window, both schemes coincide with
the `"simple"` ones, i.e. the fallback is the plain sample covariance of the
same window; (5) a max-IR date whose shrink fit succeeds uses exactly the
estimated matrix over the windowed observations; (6) with `"simple"` a
max-IR date uses exactly the sample covariance of its window. -/
theorem C8_covariance_fallback :
    (∀ (k : Nat) (sE sE2 : List (List ℚ) → Option (Matrix (Fin k) (Fin k) ℚ))
        (ic : ICMatrix) (holding n : Nat),
        max_IR_weight sE "simple" ic holding n = max_IR_weight sE2 "simple" ic holding n)
  ∧ (∀ (k : Nat) (sE sE2 : List (List ℚ) → Option (Matrix (Fin k) (Fin k) ℚ))
        (fAt : Nat → List Row) (ic : ICMatrix) (holding : Nat),
        max_IC_weight sE "simple" fAt ic holding = max_IC_weight sE2 "simple" fAt ic holding)
  ∧ (∀ (k : Nat) (sE : List (List ℚ) → Option (Matrix (Fin k) (Fin k) ℚ))
        (ic : ICMatrix) (holding n : Nat), (∀ w, sE w = none) →
        max_IR_weight sE "shrink" ic holding n = max_IR_weight sE "simple" ic holding n)
  ∧ (∀ (k : Nat) (sE : List (List ℚ) → Option (Matrix (Fin k) (Fin k) ℚ))
        (fAt : Nat → List Row) (ic : ICMatrix) (holding : Nat), (∀ w, sE w = none) →
        max_IC_weight sE "shrink" fAt ic holding = max_IC_weight sE "simple" fAt ic holding)
  ∧ (∀ (k : Nat) (sE : List (List ℚ) → Option (Matrix (Fin k) (Fin k) ℚ)) (ic : ICMatrix)
        (n i : Nat) (wd : List (List ℚ)) (C : Matrix (Fin k) (Fin k) ℚ),
        ¬ (windowAt ic n i).length < n →
        optList ((windowAt ic n i).map optList) = some wd → sE wd = some C →
        maxIRstep sE "shrink" ic n i = weightFromCov C (meanVec wd k))
  ∧ (∀ (k : Nat) (sE : List (List ℚ) → Option (Matrix (Fin k) (Fin k) ℚ)) (ic : ICMatrix)
        (n i : Nat) (wd : List (List ℚ)),
        ¬ (windowAt ic n i).length < n →
        optList ((windowAt ic n i).map optList) = some wd →
        maxIRstep sE "simple" ic n i = (match sampleCov k wd with
          | none => Except.ok none
          | some C => weightFromCov C (meanVec wd k))) := by
  refine ⟨?_, ?_, ?_, ?_, ?_, ?_⟩
  · intro k sE sE2 ic holding n
    unfold max_IR_weight
    exact congrArg (Except.map (shiftRows holding)) (exceptMap_congr (fun a _ =>
      maxIRstep_cov_congr
        (fun w => (covSelect_simple sE w).trans (covSelect_simple sE2 w).symm) ic n a))
  · intro k sE sE2 fAt ic holding
    unfold max_IC_weight
    exact congrArg (Except.map (shiftRows holding)) (exceptMap_congr (fun a _ =>
      maxICstep_cov_congr
        (fun w => (covSelect_simple sE w).trans (covSelect_simple sE2 w).symm) fAt ic a))
  · intro k sE ic holding n hfail
    unfold max_IR_weight
    exact congrArg (Except.map (shiftRows holding)) (exceptMap_congr (fun a _ =>
      maxIRstep_cov_congr
        (fun w => (covSelect_shrink_fail (hfail w)).trans (covSelect_simple sE w).symm) ic n a))
  · intro k sE fAt ic holding hfail
    unfold max_IC_weight
    exact congrArg (Except.map (shiftRows holding)) (exceptMap_congr (fun a _ =>
      maxICstep_cov_congr
        (fun w => (covSelect_shrink_fail (hfail w)).trans (covSelect_simple sE w).symm) fAt ic a))
  · intro k sE ic n i wd C hg hw hC
    unfold maxIRstep
    rw [if_neg hg, hw]
    show (match covSelect sE "shrink" wd with
        | none => (Except.ok none : Except Unit WRow)
        | some C => weightFromCov C (meanVec wd k)) = weightFromCov C (meanVec wd k)
    rw [covSelect_shrink_ok hC]
  · intro k sE ic n i wd hg hw
    unfold maxIRstep
    rw [if_neg hg, hw]
    show (match covSelect sE "simple" wd with
        | none => (Except.ok none : Except Unit WRow)
        | some C => weightFromCov C (meanVec wd k)) = (match sampleCov k wd with
        | none => Except.ok none
        | some C => weightFromCov C (meanVec wd k))
    rw [covSelect_simple sE wd]

/-- Witness for C8: an always-failing shrink estimator makes the shrink and
simple variants agree on a concrete IC matrix. -/
theorem C8_covariance_fallback_witness :
    max_IR_weight (fun _ => (none : Option (Matrix (Fin 1) (Fin 1) ℚ))) "shrink"
        [[some 1]] 0 3
      = max_IR_weight (fun _ => (none : Option (Matrix (Fin 1) (Fin 1) ℚ))) "simple"
        [[some 1]] 0 3 :=
  C8_covariance_fallback.2.2.1 1 (fun _ => none) [[some 1]] 0 3 (fun _ => rfl)

/- ### Factor panels -/

/-- One panel row: association list asset ↦ cell. -/
abbrev PRow := List (Nat × Cell)

/-- A factor panel: association list date ↦ per-asset row, dates ascending. -/
abbrev Panel := List (Nat × PRow)

/-- Association-list lookup (dict / `.loc` / label access). -/
def alookup (x : Nat) : List (Nat × α) → Option α
  | [] => none
  | (key, v) :: l => if x = key then some v else alookup x l

/-- pandas index alignment: the sorted union of two label sets. -/
def unionKeys (xs ys : List Nat) : List Nat :=
  (xs.toFinset ∪ ys.toFinset).sort (· ≤ ·)

/-- float addition with NaN propagation: a NaN cell (or a label missing from
one side, which aligns to NaN) poisons the sum. -/
def cellAdd : Cell → Cell → Cell
  | some x, some y => some (x + y)
  | _, _ => none

def rowAdd (r s : PRow) : PRow :=
  (unionKeys (r.map Prod.fst) (s.map Prod.fst)).map
    (fun a => (a, cellAdd ((alookup a r).getD none) ((alookup a s).getD none)))

/-- `DataFrame.__add__` (used by `sum_weighted_factors`): align both axes on
the sorted union of labels, add cellwise with NaN propagation. -/
def panelAdd (p q : Panel) : Panel :=
  (unionKeys (p.map Prod.fst) (q.map Prod.fst)).map
    (fun d => (d, rowAdd ((alookup d p).getD []) ((alookup d q).getD [])))

/-- `reduce(sum_weighted_factors, ...)`: left fold of panel addition. -/
def foldSum : List Panel → Panel
  | [] => []
  | p :: ps => ps.foldl panelAdd p

def panelDates (p : Panel) : List Nat := p.map Prod.fst

theorem unionKeys_comm (xs ys : List Nat) : unionKeys xs ys = unionKeys ys xs := by
  unfold unionKeys
  rw [Finset.union_comm]

theorem cellAdd_comm (a b : Cell) : cellAdd a b = cellAdd b a := by
  cases a <;> cases b <;> simp [cellAdd, add_comm]

theorem rowAdd_comm (r s : PRow) : rowAdd r s = rowAdd s r := by
  unfold rowAdd
  rw [unionKeys_comm]
  exact List.map_congr_left (fun a _ => by rw [cellAdd_comm])

theorem panelAdd_comm (p q : Panel) : panelAdd p q = panelAdd q p := by
  unfold panelAdd
  rw [unionKeys_comm]
  exact List.map_congr_left (fun d _ => by rw [rowAdd_comm])

/- ### combine_factors -/

/-- The statistical preprocessing collaborators consumed by
`combine_factors` (`jutil.fillinf` and the `process` module, with the
`index_member` argument closed over). -/
structure Collab where
  fillinf : Panel → Panel
  maskNonIndex : Panel → Panel
  winsorize : Panel → Panel
  stdZ : Panel → Panel
  stdRank : Panel → Panel

/-- The sanitize pass at the top of the `standarize_factors` loop body:
`fillinf`, then `_mask_non_index_member`, then optional winsorization. -/
def sanitize (c : Collab) (winsor : Bool) (p : Panel) : Panel :=
  if winsor then c.winsorize (c.maskNonIndex (c.fillinf p)) else c.maskNonIndex (c.fillinf p)

/-- The standardize branch of `standarize_factors`: `none` models the raised
`ValueError` on an unrecognized `standardize_type`. -/
def stdBranch (c : Collab) (t : String) (s : Panel) : Option Panel :=
  if t = "z_score" then some (c.stdZ s)
  else if t = "rank" then some (c.stdRank s)
  else none

/-- One full loop body of `standarize_factors`: `standardize_type = None`
skips standardization. -/
def stdStep (c : Collab) (stdType : Option String) (winsor : Bool) (p : Panel) : Option Panel :=
  match stdType with
  | none => some (sanitize c winsor p)
  | some t => stdBranch c t (sanitize c winsor p)

/-- `standarize_factors`, threading the caller's mutated mapping: each
entry is reassigned in turn, so a raised error leaves the earlier entries
standardized and the current one sanitized (the assignment preceding the
raise), the rest untouched. -/
def standarizeFactors (c : Collab) (stdType : Option String) (winsor : Bool) :
    List (String × Panel) → Except Unit (List (String × Panel)) × List (String × Panel)
  | [] => (Except.ok [], [])
  | (nm, p) :: rest =>
    match stdStep c stdType winsor p with
    | some q =>
      match standarizeFactors c stdType winsor rest with
      | (Except.ok qs, st) => (Except.ok ((nm, q) :: qs), (nm, q) :: st)
      | (Except.error e, st) => (Except.error e, (nm, q) :: st)
    | none => (Except.error (), (nm, sanitize c winsor p) :: rest)

/-- The standardization pipeline applied to one panel when the
`standardize_type` is recognized. -/
def stdOk (c : Collab) (stdType : Option String) (winsor : Bool) (p : Panel) : Panel :=
  match stdType with
  | none => sanitize c winsor p
  | some t => if t = "z_score" then c.stdZ (sanitize c winsor p)
      else c.stdRank (sanitize c winsor p)

/-- Source lines 444–458 after the standardization of the input mapping:
dispatch on `weighted_method`, sum the (weighted) panels, and standardize
the sum; an unrecognized method raises.  `weightBranch` stands for source
lines 445–452: the IC-driven weight computation (`_cal_weight`, which
consumes the external price/dataview collaborators and delegates to the
weight schemes embedded above) and its broadcast multiplication, returning
the weighted panels for the four IC-based methods, or a raised error. -/
def combineRest (c : Collab) (stdType : Option String) (winsor : Bool)
    (weightBranch : List (String × Panel) → Except Unit (List Panel))
    (method : String) (fs2 st : List (String × Panel)) :
    Except Unit Panel × List (String × Panel) :=
  if method ∈ (["max_IR", "max_IC", "ic_weight", "ir_weight"] : List String) then
    match weightBranch fs2 with
    | Except.error _ => (Except.error (), st)
    | Except.ok ws =>
      match standarizeFactors c stdType winsor [("factor", foldSum ws)] with
      | (Except.ok [(_, q)], _) => (Except.ok q, st)
      | _ => (Except.error (), st)
  else if method = "equal_weight" then
    match standarizeFactors c stdType winsor [("factor", foldSum (fs2.map Prod.snd))] with
    | (Except.ok [(_, q)], _) => (Except.ok q, st)
    | _ => (Except.error (), st)
  else (Except.error (), st)

/-- `combine_factors(factors_dict, standardize_type, winsorization, ...,
weighted_method)`, threading the caller's mutated mapping as the second
component. -/
def combine_factors (c : Collab) (stdType : Option String) (winsor : Bool)
    (weightBranch : List (String × Panel) → Except Unit (List Panel))
    (method : String) (fs : List (String × Panel)) :
    Except Unit Panel × List (String × Panel) :=
  if fs.length < 2 then (Except.error (), fs)
  else
    match standarizeFactors c stdType winsor fs with
    | (Except.error _, st) => (Except.error (), st)
    | (Except.ok fs2, st) => combineRest c stdType winsor weightBranch method fs2 st

/- ### get_factors_ic_df -/

/-- The signal-evaluation collaborators of `get_factors_ic_df`:
`jutil.fillinf`, the columns of `sc.get_signal_data(factor)`, and the IC
series that `pfm.calc_signal_ic` produces for a given return column (an
association list date ↦ IC cell). -/
structure SigCollab where
  fillinf : Panel → Panel
  columnsOf : Panel → List String
  icOf : Panel → String → List (Nat × Cell)

/-- `sorted(pd.concat([... indexes ...]).unique())`: the sorted union of
the input panels' date indices. -/
def sortedTimes (fs : List (String × Panel)) : List Nat :=
  (fs.foldr (fun f acc => (panelDates f.snd).toFinset ∪ acc) ∅).sort (· ≤ ·)

/-- The per-factor loop of `get_factors_ic_df`: sanitize (mutating the
mapping), compute each factor's IC series, abort on a missing return
column. -/
def icLoop (sc : SigCollab) (rt : String) :
    List (String × Panel) → Except Unit (List (List (Nat × Cell))) × List (String × Panel)
  | [] => (Except.ok [], [])
  | (nm, p) :: rest =>
    if rt ∈ sc.columnsOf (sc.fillinf p) then
      match icLoop sc rt rest with
      | (Except.ok ss, st) => (Except.ok (sc.icOf (sc.fillinf p) rt :: ss), (nm, sc.fillinf p) :: st)
      | (Except.error e, st) => (Except.error e, (nm, sc.fillinf p) :: st)
    else (Except.error (), (nm, sc.fillinf p) :: rest)

/-- `pd.concat(ic_table, axis=1).dropna().reindex(times)`: outer-join the
per-factor IC series on dates, drop any row with a NaN, reindex onto the
sorted union of the factor panels' dates (absent dates become NaN rows). -/
def assembleIC (series : List (List (Nat × Cell))) (times : List Nat) : List (Nat × Row) :=
  times.map (fun t =>
    (t, if (series.map (fun s => (alookup t s).getD none)).all (fun c => c.isSome)
        then series.map (fun s => (alookup t s).getD none)
        else series.map (fun _ => none)))

/-- `get_factors_ic_df(factors_dict, ..., ret_type)`, threading the mutated
mapping.  A `None` return type is coerced to `"return"`; an unrecognized one
raises before anything else happens; an empty mapping makes the final
`pd.concat([])` raise. -/
def get_factors_ic_df (sc : SigCollab) (retTy : Option String) (fs : List (String × Panel)) :
    Except Unit (List (Nat × Row)) × List (String × Panel) :=
  if retTy.getD "return" = "return" ∨ retTy.getD "return" = "upside_ret"
      ∨ retTy.getD "return" = "downside_ret" then
    match icLoop sc (retTy.getD "return") fs with
    | (Except.ok ss, st) =>
      if ss.isEmpty then (Except.error (), st)
      else (Except.ok (assembleIC ss (sortedTimes fs)), st)
    | (Except.error e, st) => (Except.error e, st)
  else (Except.error (), fs)

/- ### orthogonalize -/

/-- The collaborators of `orthogonalize`: `jutil.fillinf`,
`process.winsorize`, the two standardizers (with `index_member` closed
over), and the scipy orthogonalization routine `Schmidt = linalg.orth`
applied to the aligned asset × factor matrix. -/
structure OrthCollab where
  fillinf : Panel → Panel
  winsorize : Panel → Panel
  stdZ : Panel → Panel
  stdRank : Panel → Panel
  orthFn : List (List ℚ) → List (List ℚ)

/-- The sanitize pass at the top of `orthogonalize` (mutates the mapping in
place before the per-date loop). -/
def orthSanitize (c : OrthCollab) (winsor : Bool) (fs : List (String × Panel)) :
    List (String × Panel) :=
  fs.map (fun f => (f.fst, if winsor then c.winsorize (c.fillinf f.snd) else c.fillinf f.snd))

def sanPanels (c : OrthCollab) (winsor : Bool) (fs : List (String × Panel)) : List Panel :=
  (orthSanitize c winsor fs).map Prod.snd

/-- `pd.concat(..., axis=1, join="inner")` row index: the first frame's
assets that occur in every other frame, in first-frame order. -/
def innerAssets : List PRow → List Nat
  | [] => []
  | r :: rs => (r.map Prod.fst).filter (fun a => rs.all (fun s => (alookup a s).isSome))

/-- The per-factor rows of all panels at date `d` (the `.loc[date]` calls). -/
def dateRows (panels : List Panel) (d : Nat) : List PRow :=
  panels.map (fun p => (alookup d p).getD [])

/-- Assets surviving `.dropna()`: every factor cell defined. -/
def completeAssets (rows : List PRow) : List Nat :=
  (innerAssets rows).filter (fun a => rows.all (fun r => ((alookup a r).getD none).isSome))

/-- The aligned asset × factor value matrix handed to `Schmidt`. -/
def alignedMat (rows : List PRow) : List (List ℚ) :=
  (completeAssets rows).map (fun a => rows.filterMap (fun r => (alookup a r).getD none))

/-- The per-date body of the Schmidt loop.  `Except.ok none` is the
`continue` on an empty inner join; `Except.error ()` is an uncaught
exception: a `.loc` KeyError for a date absent from some factor panel, or
the index/column-count mismatch when the orthogonalization result does not
have one row per surviving asset and one column per factor — as happens
when `.dropna()` left no rows, since `linalg.orth` then returns a matrix
with zero columns and `data.columns = factor_name_list` raises. -/
def orthStep (c : OrthCollab) (k : Nat) (panels : List Panel) (d : Nat) :
    Except Unit (Option (List Nat × List (List ℚ))) :=
  match optList (panels.map (alookup d)) with
  | none => Except.error ()
  | some rows =>
    if (innerAssets rows).isEmpty then Except.ok none
    else
      if (c.orthFn (alignedMat rows)).length = (completeAssets rows).length
          ∧ ((c.orthFn (alignedMat rows)).head?.map List.length).getD 0 = k then
        Except.ok (some (completeAssets rows, c.orthFn (alignedMat rows)))
      else Except.error ()

/-- Column `j` of the per-date orthogonalization results, assembled into a
panel (the `pd.concat` of factor `j`'s per-date rows). -/
def orthPanel (survivors : List (Nat × (List Nat × List (List ℚ)))) (j : Nat) : Panel :=
  survivors.map (fun s =>
    (s.fst, List.zipWith (fun a orow => (a, (some (orow.getD j 0) : Cell))) s.snd.fst s.snd.snd))

/-- The date index the Schmidt loop iterates over: the first factor's. -/
def firstDates (c : OrthCollab) (winsor : Bool) (fs : List (String × Panel)) : List Nat :=
  panelDates ((sanPanels c winsor fs).headI)

/-- The per-date results that emitted a row (skipped dates dropped). -/
def orthSurvivors (res : List (Nat × Option (List Nat × List (List ℚ)))) :
    List (Nat × (List Nat × List (List ℚ))) :=
  res.filterMap (fun x => x.snd.map (fun y => (x.fst, y)))

/-- `orthogonalize(factors_dict, standardize_type, winsorization)`,
threading the caller's mutated mapping.  The per-date loop runs over the
first factor's date index; an unrecognized `standardize_type` falls through
to rank standardization (the source has no error branch here); if no date
survives, the final `pd.concat([])` raises. -/
def orthogonalize (c : OrthCollab) (stdType : String) (winsor : Bool)
    (fs : List (String × Panel)) :
    Except Unit (List (String × Panel)) × List (String × Panel) :=
  if fs.length < 2 then (Except.error (), fs)
  else
    match exceptMap
        (fun d => (orthStep c fs.length (sanPanels c winsor fs) d).map (fun o => (d, o)))
        (firstDates c winsor fs) with
    | Except.error _ => (Except.error (), orthSanitize c winsor fs)
    | Except.ok res =>
      if (orthSurvivors res).isEmpty then
        (Except.error (), orthSanitize c winsor fs)
      else
        (Except.ok (List.zipWith (fun f j =>
            (f.fst, (if stdType = "z_score" then c.stdZ else c.stdRank)
              (orthPanel (orthSurvivors res) j)))
          (orthSanitize c winsor fs) (List.range fs.length)),
         orthSanitize c winsor fs)

/- ### C5 -/

/-- The recognized values of `standardize_type` in `combine_factors`. -/
def validStd (stdType : Option String) : Prop :=
  stdType = none ∨ stdType = some "z_score" ∨ stdType = some "rank"

theorem stdStep_ok {c : Collab} {stdType : Option String} {winsor : Bool}
    (hv : validStd stdType) (p : Panel) :
    stdStep c stdType winsor p = some (stdOk c stdType winsor p) := by
  rcases hv with rfl | rfl | rfl
  · rfl
  · simp [stdStep, stdBranch, stdOk]
  · simp [stdStep, stdBranch, stdOk]

theorem standarizeFactors_ok {c : Collab} {stdType : Option String} {winsor : Bool}
    (hv : validStd stdType) : ∀ fs : List (String × Panel),
    standarizeFactors c stdType winsor fs
      = (Except.ok (fs.map (fun f => (f.fst, stdOk c stdType winsor f.snd))),
         fs.map (fun f => (f.fst, stdOk c stdType winsor f.snd))) := by
  intro fs
  induction fs with
  | nil => rfl
  | cons f rest ih =>
    obtain ⟨nm, p⟩ := f
    unfold standarizeFactors
    rw [stdStep_ok hv p, ih]
    rfl

theorem combine_equal_weight {c : Collab} {stdType : Option String} {winsor : Bool}
    {wb : List (String × Panel) → Except Unit (List Panel)} (hv : validStd stdType)
    (a b : String) (A B : Panel) :
    combine_factors c stdType winsor wb "equal_weight" [(a, A), (b, B)]
      = (Except.ok (stdOk c stdType winsor
            (panelAdd (stdOk c stdType winsor A) (stdOk c stdType winsor B))),
         [(a, stdOk c stdType winsor A), (b, stdOk c stdType winsor B)]) := by
  unfold combine_factors
  rw [if_neg (by simp), standarizeFactors_ok hv]
  show combineRest c stdType winsor wb "equal_weight"
      ([(a, A), (b, B)].map (fun f => (f.fst, stdOk c stdType winsor f.snd)))
      ([(a, A), (b, B)].map (fun f => (f.fst, stdOk c stdType winsor f.snd))) = _
  unfold combineRest
  rw [if_neg (by decide), if_pos rfl, standarizeFactors_ok hv]
  rfl

/-- C5: `combine_factors` with `weighted_method = "equal_weight"` on a
mapping of two factors A, B returns `std(std(A) + std(B))` (where `std` is
the full `standarize_factors` pass: sanitize, mask, optional winsorize,
then the selected standardization), and the result is independent of the
order in which A and B appear in the input mapping. -/
theorem C5_equal_weight_roundtrip (c : Collab) (stdType : Option String) (winsor : Bool)
    (wb : List (String × Panel) → Except Unit (List Panel)) (a b : String) (A B : Panel)
    (hv : validStd stdType) :
    (combine_factors c stdType winsor wb "equal_weight" [(a, A), (b, B)]).fst
      = Except.ok (stdOk c stdType winsor
          (panelAdd (stdOk c stdType winsor A) (stdOk c stdType winsor B)))
    ∧ (combine_factors c stdType winsor wb "equal_weight" [(a, A), (b, B)]).fst
      = (combine_factors c stdType winsor wb "equal_weight" [(b, B), (a, A)]).fst := by
  constructor
  · rw [combine_equal_weight hv a b A B]
  · rw [combine_equal_weight hv a b A B, combine_equal_weight hv b a B A]
    exact congrArg (fun t => Except.ok (stdOk c stdType winsor t)) (panelAdd_comm _ _)

/-- Identity preprocessing collaborators (no index membership mask). -/
def cIdPanels : Collab := ⟨id, id, id, id, id⟩

/-- A weight branch that is never reached in the equal-weight path. -/
def wbNone : List (String × Panel) → Except Unit (List Panel) := fun _ => Except.error ()

def pWitA : Panel := [(0, [(1, some 1)])]

def pWitB : Panel := [(0, [(1, some 2)])]

/-- Witness for C5 at a concrete two-factor mapping. -/
theorem C5_equal_weight_roundtrip_witness :
    (combine_factors cIdPanels none false wbNone "equal_weight"
        [("A", pWitA), ("B", pWitB)]).fst
      = Except.ok (stdOk cIdPanels none false
          (panelAdd (stdOk cIdPanels none false pWitA) (stdOk cIdPanels none false pWitB)))
    ∧ (combine_factors cIdPanels none false wbNone "equal_weight"
        [("A", pWitA), ("B", pWitB)]).fst
      = (combine_factors cIdPanels none false wbNone "equal_weight"
        [("B", pWitB), ("A", pWitA)]).fst :=
  C5_equal_weight_roundtrip cIdPanels none false wbNone "A" "B" pWitA pWitB (Or.inl rfl)

/- ### C6 and C7 -/

/-- Preprocessing collaborators for an `index_member` that contains none of
the panel's assets: `_mask_non_index_member` blanks every entry. -/
def cMaskAll : Collab := ⟨id, fun _ => [], id, id, id⟩

/-- C6 counterexample: `combine_factors` with the unrecognized
`standardize_type = "bogus"` raises its validation error only inside the
`standarize_factors` loop, after the first factor has already been
sanitized and reassigned in the caller's mapping (here the index-membership
mask has blanked factor A), so the error is partially applied: the caller's
input mapping is not left unchanged. -/
theorem C6_counterexample :
    (combine_factors cMaskAll (some "bogus") false wbNone "equal_weight"
        [("A", pWitA), ("B", pWitB)]).fst = Except.error ()
    ∧ (combine_factors cMaskAll (some "bogus") false wbNone "equal_weight"
        [("A", pWitA), ("B", pWitB)]).snd = [("A", ([] : Panel)), ("B", pWitB)]
    ∧ pWitA ≠ ([] : Panel) := by
  refine ⟨rfl, rfl, ?_⟩
  simp [pWitA]

theorem standarizeFactors_badtype {c : Collab} {t : String} {winsor : Bool}
    (h1 : t ≠ "z_score") (h2 : t ≠ "rank") {fs : List (String × Panel)} (hne : fs ≠ []) :
    (standarizeFactors c (some t) winsor fs).fst = Except.error () := by
  cases fs with
  | nil => exact absurd rfl hne
  | cons f rest =>
    obtain ⟨nm, p⟩ := f
    unfold standarizeFactors
    rw [show stdStep c (some t) winsor p = none by simp [stdStep, stdBranch, h1, h2]]

theorem getFactorsIc_badRet {sc : SigCollab} {fs : List (String × Panel)} {s : String}
    (h : ¬ (s = "return" ∨ s = "upside_ret" ∨ s = "downside_ret")) :
    get_factors_ic_df sc (some s) fs = (Except.error (), fs) := by
  unfold get_factors_ic_df
  simp only [Option.getD_some]
  rw [if_neg h]

theorem icLoop_missing_column {sc : SigCollab} {rt : String} :
    ∀ {fs : List (String × Panel)}, (∃ f ∈ fs, rt ∉ sc.columnsOf (sc.fillinf f.snd)) →
    (icLoop sc rt fs).fst = Except.error () := by
  intro fs
  induction fs with
  | nil => rintro ⟨f, hf, _⟩; simp at hf
  | cons g rest ih =>
    rintro ⟨f, hf, hcol⟩
    obtain ⟨nm, p⟩ := g
    unfold icLoop
    by_cases hin : rt ∈ sc.columnsOf (sc.fillinf p)
    · rw [if_pos hin]
      rcases List.mem_cons.mp hf with rfl | hf2
      · exact absurd hin hcol
      · have hrest := ih ⟨f, hf2, hcol⟩
        cases hl : icLoop sc rt rest with
        | mk efst esnd =>
          rw [hl] at hrest
          simp only at hrest
          subst hrest
          rfl
    · rw [if_neg hin]

/-- C6 (amended): every validation error is raised synchronously and aborts
the call, but not every one fires before mutation: (1) fewer than two
factors in `combine_factors` and (2) in `orthogonalize` error with the
caller's mapping untouched, as does (3) an unrecognized `ret_type` in
`get_factors_ic_df`; (4) an unrecognized `standardize_type` in
`combine_factors` raises inside the standardization loop — after entries
have been reassigned, as the counterexample shows; (5) an unrecognized
`weighted_method` raises only after the whole mapping has been
standardized; (6) a missing return column aborts `get_factors_ic_df` from
within its per-factor loop. -/
theorem C6_validation_errors :
    (∀ (c : Collab) (stdType : Option String) (winsor : Bool)
        (wb : List (String × Panel) → Except Unit (List Panel)) (m : String)
        (fs : List (String × Panel)), fs.length < 2 →
        combine_factors c stdType winsor wb m fs = (Except.error (), fs))
  ∧ (∀ (c : OrthCollab) (stdType : String) (winsor : Bool) (fs : List (String × Panel)),
        fs.length < 2 → orthogonalize c stdType winsor fs = (Except.error (), fs))
  ∧ (∀ (sc : SigCollab) (s : String) (fs : List (String × Panel)),
        ¬ (s = "return" ∨ s = "upside_ret" ∨ s = "downside_ret") →
        get_factors_ic_df sc (some s) fs = (Except.error (), fs))
  ∧ (∀ (c : Collab) (t : String) (winsor : Bool)
        (wb : List (String × Panel) → Except Unit (List Panel)) (m : String)
        (fs : List (String × Panel)), t ≠ "z_score" → t ≠ "rank" →
        (combine_factors c (some t) winsor wb m fs).fst = Except.error ())
  ∧ (∀ (c : Collab) (stdType : Option String) (winsor : Bool)
        (wb : List (String × Panel) → Except Unit (List Panel)) (m : String)
        (fs : List (String × Panel)), validStd stdType →
        m ∉ (["max_IR", "max_IC", "ic_weight", "ir_weight"] : List String) →
        m ≠ "equal_weight" → (combine_factors c stdType winsor wb m fs).fst = Except.error ())
  ∧ (∀ (sc : SigCollab) (rt : String) (fs : List (String × Panel)),
        (rt = "return" ∨ rt = "upside_ret" ∨ rt = "downside_ret") →
        (∃ f ∈ fs, rt ∉ sc.columnsOf (sc.fillinf f.snd)) →
        (get_factors_ic_df sc (some rt) fs).fst = Except.error ()) := by
  refine ⟨?_, ?_, ?_, ?_, ?_, ?_⟩
  · intro c stdType winsor wb m fs h
    unfold combine_factors
    rw [if_pos h]
  · intro c stdType winsor fs h
    unfold orthogonalize
    rw [if_pos h]
  · intro sc s fs h
    exact getFactorsIc_badRet h
  · intro c t winsor wb m fs h1 h2
    by_cases hlen : fs.length < 2
    · unfold combine_factors
      rw [if_pos hlen]
    · have hne : fs ≠ [] := by
        intro hnil
        rw [hnil] at hlen
        exact hlen (by decide)
      have hb := @standarizeFactors_badtype c t winsor h1 h2 fs hne
      unfold combine_factors
      rw [if_neg hlen]
      cases hsf : standarizeFactors c (some t) winsor fs with
      | mk efst esnd =>
        rw [hsf] at hb
        simp only at hb
        subst hb
        rfl
  · intro c stdType winsor wb m fs hv hm1 hm2
    by_cases hlen : fs.length < 2
    · unfold combine_factors
      rw [if_pos hlen]
    · unfold combine_factors
      rw [if_neg hlen, standarizeFactors_ok hv]
      show (combineRest c stdType winsor wb m
          (fs.map (fun f => (f.fst, stdOk c stdType winsor f.snd)))
          (fs.map (fun f => (f.fst, stdOk c stdType winsor f.snd)))).fst = Except.error ()
      unfold combineRest
      rw [if_neg hm1, if_neg hm2]
  · intro sc rt fs hrt hmiss
    have hl := icLoop_missing_column hmiss
    unfold get_factors_ic_df
    simp only [Option.getD_some]
    rw [if_pos hrt]
    cases hloop : icLoop sc rt fs with
    | mk efst esnd =>
      rw [hloop] at hl
      simp only at hl
      subst hl
      rfl

/-- Witness for C6 (amended): the too-few-factors error on a concrete
single-factor mapping leaves the mapping unchanged. -/
theorem C6_validation_errors_witness :
    combine_factors cIdPanels none false wbNone "equal_weight" [("A", pWitA)]
      = (Except.error (), [("A", pWitA)]) :=
  C6_validation_errors.1 cIdPanels none false wbNone "equal_weight" [("A", pWitA)] (by decide)

/-- C7: `get_factors_ic_df` raises a validation error (before touching any
factor) for every `ret_type` string outside
`{"return", "upside_ret", "downside_ret"}`, leaving the mapping unchanged. -/
theorem C7_ret_type_validation (sc : SigCollab) (fs : List (String × Panel)) (s : String)
    (h : s ∉ (["return", "upside_ret", "downside_ret"] : List String)) :
    get_factors_ic_df sc (some s) fs = (Except.error (), fs) :=
  getFactorsIc_badRet (by simpa using h)

/-- Identity signal collaborator whose signal data has only a `"return"`
column. -/
def scRet : SigCollab := ⟨id, fun _ => ["return"], fun _ _ => []⟩

/-- Witness for C7 at the concrete unsupported return type `"volatility"`. -/
theorem C7_ret_type_validation_witness :
    get_factors_ic_df scRet (some "volatility") [("A", pWitA)]
      = (Except.error (), [("A", pWitA)]) :=
  C7_ret_type_validation scRet [("A", pWitA)] "volatility" (by decide)

/- ### C10 -/

theorem icLoop_ok_length {sc : SigCollab} {rt : String} :
    ∀ {fs : List (String × Panel)} {ss : List (List (Nat × Cell))} {st : List (String × Panel)},
      icLoop sc rt fs = (Except.ok ss, st) → ss.length = fs.length := by
  intro fs
  induction fs with
  | nil =>
    intro ss st h
    unfold icLoop at h
    simp only [Prod.mk.injEq, Except.ok.injEq] at h
    rw [← h.1]
    rfl
  | cons g rest ih =>
    intro ss st h
    obtain ⟨nm, p⟩ := g
    unfold icLoop at h
    by_cases hin : rt ∈ sc.columnsOf (sc.fillinf p)
    · rw [if_pos hin] at h
      cases hl : icLoop sc rt rest with
      | mk efst esnd =>
        rw [hl] at h
        cases efst with
        | error e =>
          replace h : ((Except.error e : Except Unit (List (List (Nat × Cell)))),
              (nm, sc.fillinf p) :: esnd) = (Except.ok ss, st) := h
          simp at h
        | ok ss2 =>
          replace h : ((Except.ok (sc.icOf (sc.fillinf p) rt :: ss2) :
              Except Unit (List (List (Nat × Cell)))),
              (nm, sc.fillinf p) :: esnd) = (Except.ok ss, st) := h
          simp only [Prod.mk.injEq, Except.ok.injEq] at h
          rw [← h.1]
          simp [ih hl]
    · rw [if_neg hin] at h
      simp at h

/-- C10: every row of the IC matrix returned by `get_factors_ic_df` is
all-or-nothing: the date index is exactly the sorted union of the input
factor panels' date indices, every row has one cell per factor, and each
row is either fully defined or entirely NaN — the `dropna` removes every
partially defined date and the reindex reintroduces missing dates as
all-NaN rows. -/
theorem C10_all_or_nothing (sc : SigCollab) (retTy : Option String)
    (fs : List (String × Panel)) (icdf : List (Nat × Row)) (st : List (String × Panel))
    (h : get_factors_ic_df sc retTy fs = (Except.ok icdf, st)) :
    icdf.map Prod.fst = sortedTimes fs
    ∧ ∀ x ∈ icdf, x.snd.length = fs.length
        ∧ ((∀ c ∈ x.snd, c.isSome) ∨ (∀ c ∈ x.snd, c = none)) := by
  unfold get_factors_ic_df at h
  by_cases hrt : retTy.getD "return" = "return" ∨ retTy.getD "return" = "upside_ret"
      ∨ retTy.getD "return" = "downside_ret"
  · rw [if_pos hrt] at h
    cases hl : icLoop sc (retTy.getD "return") fs with
    | mk efst esnd =>
      rw [hl] at h
      cases efst with
      | error e =>
        replace h : ((Except.error e : Except Unit (List (Nat × Row))), esnd)
            = (Except.ok icdf, st) := h
        simp at h
      | ok ss =>
        replace h : (if ss.isEmpty then ((Except.error (), esnd) :
              Except Unit (List (Nat × Row)) × List (String × Panel))
            else (Except.ok (assembleIC ss (sortedTimes fs)), esnd))
            = (Except.ok icdf, st) := h
        by_cases hss : ss.isEmpty
        · rw [if_pos hss] at h
          simp at h
        · rw [if_neg hss] at h
          simp only [Prod.mk.injEq, Except.ok.injEq] at h
          have hicdf : icdf = assembleIC ss (sortedTimes fs) := h.1.symm
          have hsslen : ss.length = fs.length := icLoop_ok_length hl
          subst hicdf
          constructor
          · unfold assembleIC
            rw [List.map_map]
            exact List.map_id _
          · intro x hx
            obtain ⟨t, _, hxeq⟩ := List.mem_map.mp hx
            by_cases hall : (ss.map (fun s => (alookup t s).getD none)).all (fun c => c.isSome)
            · rw [if_pos hall] at hxeq
              refine ⟨?_, Or.inl ?_⟩
              · rw [← hxeq]
                simp [hsslen]
              · intro c hc
                rw [← hxeq] at hc
                exact List.all_eq_true.mp hall c hc
            · rw [if_neg hall] at hxeq
              refine ⟨?_, Or.inr ?_⟩
              · rw [← hxeq]
                simp [hsslen]
              · intro c hc
                rw [← hxeq] at hc
                obtain ⟨s, _, hcs⟩ := List.mem_map.mp hc
                exact hcs.symm
  · rw [if_neg hrt] at h
    simp at h

/-- A signal collaborator producing a single IC observation at date 0. -/
def scOne : SigCollab := ⟨id, fun _ => ["return"], fun _ _ => [(0, some 1)]⟩

/-- A one-factor mapping whose panel has dates 0 and 2. -/
def fsTwoDates : List (String × Panel) := [("A", [(0, []), (2, [])])]

/-- Witness for C10 at a concrete run: the assembled IC table is indexed by
the sorted union of dates and its rows are all-or-nothing. -/
theorem C10_all_or_nothing_witness :
    (assembleIC [[(0, some 1)]] (sortedTimes fsTwoDates)).map Prod.fst = sortedTimes fsTwoDates
    ∧ ∀ x ∈ assembleIC [[(0, some 1)]] (sortedTimes fsTwoDates),
        x.snd.length = fsTwoDates.length
        ∧ ((∀ c ∈ x.snd, c.isSome) ∨ (∀ c ∈ x.snd, c = none)) :=
  C10_all_or_nothing scOne none fsTwoDates
    (assembleIC [[(0, some 1)]] (sortedTimes fsTwoDates)) fsTwoDates rfl

/- ### C9 -/

theorem optList_alookup {S : List Panel} {d : Nat} (hp : ∀ p ∈ S, (alookup d p).isSome) :
    optList (S.map (alookup d)) = some (dateRows S d) := by
  induction S with
  | nil => rfl
  | cons p rest ih =>
    have hps := hp p (List.mem_cons_self p rest)
    obtain ⟨r, hr⟩ := Option.isSome_iff_exists.mp hps
    have ihr := ih (fun q hq => hp q (List.mem_cons_of_mem p hq))
    unfold dateRows at ihr ⊢
    simp only [List.map_cons, hr, optList, ihr, Option.map_some']
    simp [hr]

theorem filterMap_allSome_length {f : α → Option β} :
    ∀ {l : List α}, (∀ x ∈ l, (f x).isSome) → (l.filterMap f).length = l.length := by
  intro l
  induction l with
  | nil => intro _; rfl
  | cons a t ih =>
    intro hall
    obtain ⟨b, hb⟩ := Option.isSome_iff_exists.mp (hall a (List.mem_cons_self a t))
    rw [List.filterMap_cons, hb]
    simp [ih (fun x hx => hall x (List.mem_cons_of_mem a hx))]

theorem exceptMap_ok_of_forall {f : α → Except Unit β} {g : α → β} :
    ∀ {l : List α}, (∀ a ∈ l, f a = Except.ok (g a)) → exceptMap f l = Except.ok (l.map g) := by
  intro l
  induction l with
  | nil => intro _; rfl
  | cons a t ih =>
    intro hall
    unfold exceptMap
    rw [hall a (List.mem_cons_self a t), ih (fun x hx => hall x (List.mem_cons_of_mem a hx))]
    rfl

theorem filterMap_ite_fst {Q : Nat → Bool} {h : Nat → α} :
    ∀ {D : List Nat},
      (D.filterMap (fun d => if Q d then none else some (d, h d))).map Prod.fst
        = D.filter (fun d => ! Q d) := by
  intro D
  induction D with
  | nil => rfl
  | cons d t ih =>
    by_cases hq : Q d
    · simp [List.filterMap_cons, List.filter_cons, hq, ih]
    · simp [List.filterMap_cons, List.filter_cons, hq, ih]

theorem zipWith_map_fst {g : String × Panel → Nat → Panel} :
    ∀ (l : List (String × Panel)) (ys : List Nat), l.length ≤ ys.length →
      (List.zipWith (fun f j => (f.fst, g f j)) l ys).map Prod.fst = l.map Prod.fst := by
  intro l
  induction l with
  | nil => intro ys _; rfl
  | cons a t ih =>
    intro ys hlen
    cases ys with
    | nil => simp at hlen
    | cons y ys2 =>
      simp only [List.zipWith_cons_cons, List.map_cons, List.length_cons] at hlen ⊢
      rw [ih ys2 (by omega)]

theorem mem_zipWith {f : α → β → γ} :
    ∀ {l : List α} {ys : List β} {x : γ}, x ∈ List.zipWith f l ys →
      ∃ a ∈ l, ∃ b ∈ ys, x = f a b := by
  intro l
  induction l with
  | nil => intro ys x hx; simp at hx
  | cons a t ih =>
    intro ys x hx
    cases ys with
    | nil => simp at hx
    | cons y ys2 =>
      rw [List.zipWith_cons_cons] at hx
      rcases List.mem_cons.mp hx with rfl | hx2
      · exact ⟨a, List.mem_cons_self a t, y, List.mem_cons_self y ys2, rfl⟩
      · obtain ⟨a2, ha2, b2, hb2, hxeq⟩ := ih hx2
        exact ⟨a2, List.mem_cons_of_mem a ha2, b2, List.mem_cons_of_mem y hb2, hxeq⟩

theorem alignedMat_rowlen {rows : List PRow} {r : List ℚ} (hr : r ∈ alignedMat rows) :
    r.length = rows.length := by
  unfold alignedMat at hr
  obtain ⟨a, ha, hreq⟩ := List.mem_map.mp hr
  have hall : ∀ x ∈ rows, ((alookup a x).getD none).isSome := by
    unfold completeAssets at ha
    have := List.of_mem_filter ha
    exact fun x hx => List.all_eq_true.mp this x hx
  rw [← hreq]
  exact filterMap_allSome_length hall

theorem orthStep_rows {c : OrthCollab} {k : Nat} {S : List Panel} {d : Nat}
    (hp : ∀ p ∈ S, (alookup d p).isSome) :
    orthStep c k S d =
      (if (innerAssets (dateRows S d)).isEmpty then Except.ok none
       else
        if (c.orthFn (alignedMat (dateRows S d))).length = (completeAssets (dateRows S d)).length
            ∧ ((c.orthFn (alignedMat (dateRows S d))).head?.map List.length).getD 0 = k then
          Except.ok (some (completeAssets (dateRows S d), c.orthFn (alignedMat (dateRows S d))))
        else Except.error ()) := by
  unfold orthStep
  rw [optList_alookup hp]

theorem orthStep_error {c : OrthCollab} {k : Nat} {S : List Panel} {d : Nat}
    (hp : ∀ p ∈ S, (alookup d p).isSome) (hk : 2 ≤ k)
    (horth : ∀ m : List (List ℚ), (∀ r ∈ m, r.length = k) →
        (c.orthFn m).length = m.length ∧ ∀ r ∈ c.orthFn m, r.length = k)
    (hjoin : ¬ ((innerAssets (dateRows S d)).isEmpty = true))
    (hcomp : completeAssets (dateRows S d) = []) :
    orthStep c k S d = Except.error () := by
  rw [orthStep_rows hp, if_neg hjoin]
  have hmat : alignedMat (dateRows S d) = [] := by
    unfold alignedMat
    rw [hcomp]
    rfl
  have hom : c.orthFn (alignedMat (dateRows S d)) = [] := by
    rw [hmat]
    exact List.length_eq_zero.mp (by simpa using (horth [] (by simp)).1)
  rw [if_neg (by rw [hom]; rintro ⟨_, h2⟩; simp at h2; omega)]

theorem orthStep_ok {c : OrthCollab} {k : Nat} {S : List Panel} {d : Nat}
    (hp : ∀ p ∈ S, (alookup d p).isSome) (hSlen : S.length = k)
    (horth : ∀ m : List (List ℚ), (∀ r ∈ m, r.length = k) →
        (c.orthFn m).length = m.length ∧ ∀ r ∈ c.orthFn m, r.length = k)
    (hcomp : ¬ ((innerAssets (dateRows S d)).isEmpty = true) →
        completeAssets (dateRows S d) ≠ []) :
    orthStep c k S d = Except.ok
      (if (innerAssets (dateRows S d)).isEmpty then none
       else some (completeAssets (dateRows S d), c.orthFn (alignedMat (dateRows S d)))) := by
  rw [orthStep_rows hp]
  by_cases hj : (innerAssets (dateRows S d)).isEmpty
  · rw [if_pos hj, if_pos hj]
  · rw [if_neg hj, if_neg hj]
    have hrl : ∀ r ∈ alignedMat (dateRows S d), r.length = k := by
      intro r hr
      rw [alignedMat_rowlen hr]
      unfold dateRows
      rw [List.length_map, hSlen]
    obtain ⟨hl1, hl2⟩ := horth _ hrl
    have homlen : (c.orthFn (alignedMat (dateRows S d))).length
        = (completeAssets (dateRows S d)).length := by
      rw [hl1]
      unfold alignedMat
      rw [List.length_map]
    have hompos : c.orthFn (alignedMat (dateRows S d)) ≠ [] := by
      intro h0
      rw [h0] at homlen
      exact hcomp hj (List.length_eq_zero.mp homlen.symm)
    obtain ⟨r0, rest0, hom⟩ := List.exists_cons_of_ne_nil hompos
    rw [if_pos ⟨homlen, by rw [hom]; simpa using hl2 r0 (by rw [hom]; exact List.mem_cons_self r0 rest0)⟩]

theorem orthogonalize_ok_case {c : OrthCollab} {stdType : String} {winsor : Bool}
    {fs : List (String × Panel)} {res : List (Nat × Option (List Nat × List (List ℚ)))}
    (h2 : ¬ fs.length < 2)
    (hmap : exceptMap
        (fun d => (orthStep c fs.length (sanPanels c winsor fs) d).map (fun o => (d, o)))
        (firstDates c winsor fs) = Except.ok res) :
    orthogonalize c stdType winsor fs =
      (if (orthSurvivors res).isEmpty then (Except.error (), orthSanitize c winsor fs)
       else (Except.ok (List.zipWith (fun f j =>
            (f.fst, (if stdType = "z_score" then c.stdZ else c.stdRank)
              (orthPanel (orthSurvivors res) j)))
          (orthSanitize c winsor fs) (List.range fs.length)),
         orthSanitize c winsor fs)) := by
  unfold orthogonalize
  rw [if_neg h2, hmap]

/-- Identity orthogonalization collaborators (scipy `orth` replaced by a
shape-preserving identity, preprocessing by identities). -/
def cOrthId : OrthCollab := ⟨id, id, id, id, id⟩

/-- Two factors over dates 0 and 5; on date 5 the inner join by asset is
nonempty (asset 1 is present in both panels) but factor A's cell is NaN, so
`.dropna()` leaves zero rows. -/
def fsOrthBad : List (String × Panel) :=
  [("A", [(0, [(1, some 1), (2, some 2)]), (5, [(1, none)])]),
   ("B", [(0, [(1, some 3), (2, some 4)]), (5, [(1, some 1)])])]

/-- C9 counterexample: on date 5 the inner join is nonempty but every joined
row is incomplete; instead of skipping the date, the call aborts with an
error (`linalg.orth` of the empty matrix has zero columns, and assigning the
two factor names as columns raises) — so no FactorSet restricted to the
surviving dates is returned, contrary to the claim's skip rule. -/
theorem C9_counterexample :
    (orthogonalize cOrthId "z_score" false fsOrthBad).fst = Except.error () := rfl

/-- C9 (amended): `orthogonalize` iterates over exactly the dates of the
first factor's index; per date the factor rows are inner-joined by asset
and the incomplete rows dropped.  A date whose inner join is empty is
skipped, but (first conjunct) a date whose join is nonempty while all its
rows are incomplete aborts the whole call with an error instead of being
skipped.  When every joined date keeps at least one complete asset (second
conjunct) the call succeeds, the returned FactorSet has the same keys as
the input in order, and each output panel's dates are exactly the first
factor's dates whose inner join was nonempty.  Hypotheses: at least two
factors; every iterated date is present in every (sanitized) panel (else
`.loc` raises); the orthogonalization routine is shape-preserving; the
standardizers preserve the date index. -/
theorem C9_orthogonalize_shape :
    (∀ (c : OrthCollab) (stdType : String) (winsor : Bool) (fs : List (String × Panel)) (d : Nat),
        2 ≤ fs.length →
        (∀ d2 ∈ firstDates c winsor fs, ∀ p ∈ sanPanels c winsor fs, (alookup d2 p).isSome) →
        (∀ m : List (List ℚ), (∀ r ∈ m, r.length = fs.length) →
          (c.orthFn m).length = m.length ∧ ∀ r ∈ c.orthFn m, r.length = fs.length) →
        d ∈ firstDates c winsor fs →
        ¬ ((innerAssets (dateRows (sanPanels c winsor fs) d)).isEmpty = true) →
        completeAssets (dateRows (sanPanels c winsor fs) d) = [] →
        (orthogonalize c stdType winsor fs).fst = Except.error ())
  ∧ (∀ (c : OrthCollab) (stdType : String) (winsor : Bool) (fs : List (String × Panel)),
        2 ≤ fs.length →
        (∀ d2 ∈ firstDates c winsor fs, ∀ p ∈ sanPanels c winsor fs, (alookup d2 p).isSome) →
        (∀ m : List (List ℚ), (∀ r ∈ m, r.length = fs.length) →
          (c.orthFn m).length = m.length ∧ ∀ r ∈ c.orthFn m, r.length = fs.length) →
        (∀ d ∈ firstDates c winsor fs,
          ¬ ((innerAssets (dateRows (sanPanels c winsor fs) d)).isEmpty = true) →
          completeAssets (dateRows (sanPanels c winsor fs) d) ≠ []) →
        (∃ d ∈ firstDates c winsor fs,
          ¬ ((innerAssets (dateRows (sanPanels c winsor fs) d)).isEmpty = true)) →
        (∀ p : Panel, panelDates (c.stdZ p) = panelDates p) →
        (∀ p : Panel, panelDates (c.stdRank p) = panelDates p) →
        ∃ out, (orthogonalize c stdType winsor fs).fst = Except.ok out
          ∧ out.map Prod.fst = fs.map Prod.fst
          ∧ ∀ x ∈ out, panelDates x.snd
              = (firstDates c winsor fs).filter
                  (fun d => !(innerAssets (dateRows (sanPanels c winsor fs) d)).isEmpty)) := by
  constructor
  · intro c stdType winsor fs d h2 hpres horth hd hjoin hcomp
    unfold orthogonalize
    rw [if_neg (by omega)]
    rw [exceptMap_error_of_mem ⟨d, hd, by
      rw [orthStep_error (fun p hp => hpres d hd p hp) h2 horth hjoin hcomp]
      rfl⟩]
  · intro c stdType winsor fs h2 hpres horth hgood hsome hstdZ hstdR
    have hSlen : (sanPanels c winsor fs).length = fs.length := by
      unfold sanPanels orthSanitize
      simp
    have hmap : exceptMap
        (fun d => (orthStep c fs.length (sanPanels c winsor fs) d).map (fun o => (d, o)))
        (firstDates c winsor fs)
        = Except.ok ((firstDates c winsor fs).map (fun d =>
            (d, if (innerAssets (dateRows (sanPanels c winsor fs) d)).isEmpty then none
                else some (completeAssets (dateRows (sanPanels c winsor fs) d),
                  c.orthFn (alignedMat (dateRows (sanPanels c winsor fs) d)))))) := by
      apply exceptMap_ok_of_forall
      intro d hd
      rw [orthStep_ok (fun p hp => hpres d hd p hp) hSlen horth (hgood d hd)]
      rfl
    have hsurv : orthSurvivors ((firstDates c winsor fs).map (fun d =>
            (d, if (innerAssets (dateRows (sanPanels c winsor fs) d)).isEmpty then none
                else some (completeAssets (dateRows (sanPanels c winsor fs) d),
                  c.orthFn (alignedMat (dateRows (sanPanels c winsor fs) d))))))
        = (firstDates c winsor fs).filterMap (fun d =>
            if (innerAssets (dateRows (sanPanels c winsor fs) d)).isEmpty then none
            else some (d, (completeAssets (dateRows (sanPanels c winsor fs) d),
              c.orthFn (alignedMat (dateRows (sanPanels c winsor fs) d))))) := by
      unfold orthSurvivors
      rw [List.filterMap_map]
      apply List.filterMap_congr
      intro d _
      by_cases hj : (innerAssets (dateRows (sanPanels c winsor fs) d)).isEmpty
      · have hj2 : innerAssets (dateRows (sanPanels c winsor fs) d) = [] :=
          List.isEmpty_iff.mp hj
        simp [hj, hj2]
      · have hj2 : innerAssets (dateRows (sanPanels c winsor fs) d) ≠ [] := by
          simpa [List.isEmpty_iff] using hj
        simp [hj, hj2]
    have hfst : ((firstDates c winsor fs).filterMap (fun d =>
            if (innerAssets (dateRows (sanPanels c winsor fs) d)).isEmpty then none
            else some (d, (completeAssets (dateRows (sanPanels c winsor fs) d),
              c.orthFn (alignedMat (dateRows (sanPanels c winsor fs) d)))))).map Prod.fst
        = (firstDates c winsor fs).filter
            (fun d => !(innerAssets (dateRows (sanPanels c winsor fs) d)).isEmpty) :=
      filterMap_ite_fst
    have hne : ¬ ((orthSurvivors ((firstDates c winsor fs).map (fun d =>
            (d, if (innerAssets (dateRows (sanPanels c winsor fs) d)).isEmpty then none
                else some (completeAssets (dateRows (sanPanels c winsor fs) d),
                  c.orthFn (alignedMat (dateRows (sanPanels c winsor fs) d))))))).isEmpty
          = true) := by
      rw [hsurv]
      intro hemp
      obtain ⟨d0, hd0, hj0⟩ := hsome
      have hmem : d0 ∈ ((firstDates c winsor fs).filterMap (fun d =>
          if (innerAssets (dateRows (sanPanels c winsor fs) d)).isEmpty then none
          else some (d, (completeAssets (dateRows (sanPanels c winsor fs) d),
            c.orthFn (alignedMat (dateRows (sanPanels c winsor fs) d)))))).map Prod.fst := by
        rw [hfst]
        exact List.mem_filter.mpr ⟨hd0, by simpa using hj0⟩
      rw [List.isEmpty_iff.mp hemp] at hmem
      simp at hmem
    rw [orthogonalize_ok_case (by omega) hmap, if_neg hne]
    refine ⟨_, rfl, ?_, ?_⟩
    · rw [zipWith_map_fst _ _ (by rw [List.length_range]; unfold orthSanitize; simp)]
      unfold orthSanitize
      rw [List.map_map]
      exact List.map_congr_left (fun f _ => rfl)
    · intro x hx
      obtain ⟨a, _, j, _, hxeq⟩ := mem_zipWith hx
      subst hxeq
      have hOP : panelDates (orthPanel (orthSurvivors ((firstDates c winsor fs).map (fun d =>
            (d, if (innerAssets (dateRows (sanPanels c winsor fs) d)).isEmpty then none
                else some (completeAssets (dateRows (sanPanels c winsor fs) d),
                  c.orthFn (alignedMat (dateRows (sanPanels c winsor fs) d))))))) j)
          = (firstDates c winsor fs).filter
              (fun d => !(innerAssets (dateRows (sanPanels c winsor fs) d)).isEmpty) := by
        unfold orthPanel panelDates
        rw [List.map_map]
        calc (orthSurvivors _).map _
            = (orthSurvivors ((firstDates c winsor fs).map (fun d =>
                (d, if (innerAssets (dateRows (sanPanels c winsor fs) d)).isEmpty then none
                    else some (completeAssets (dateRows (sanPanels c winsor fs) d),
                      c.orthFn (alignedMat (dateRows (sanPanels c winsor fs) d))))))).map
                Prod.fst := List.map_congr_left (fun s _ => rfl)
          _ = _ := by rw [hsurv]; exact hfst
      dsimp only
      by_cases ht : stdType = "z_score"
      · rw [if_pos ht, hstdZ, hOP]
      · rw [if_neg ht, hstdR, hOP]

/-- Two fully defined factors over a single date 0 with assets 1 and 2. -/
def fsOrthGood : List (String × Panel) :=
  [("A", [(0, [(1, some 1), (2, some 2)])]), ("B", [(0, [(1, some 3), (2, some 4)])])]

/-- Witness for C9 (amended) at a concrete fully defined input. -/
theorem C9_orthogonalize_shape_witness :
    ∃ out, (orthogonalize cOrthId "z_score" false fsOrthGood).fst = Except.ok out
      ∧ out.map Prod.fst = fsOrthGood.map Prod.fst
      ∧ ∀ x ∈ out, panelDates x.snd
          = (firstDates cOrthId false fsOrthGood).filter
              (fun d => !(innerAssets (dateRows (sanPanels cOrthId false fsOrthGood) d)).isEmpty) :=
  C9_orthogonalize_shape.2 cOrthId "z_score" false fsOrthGood (by decide)
    (by decide) (fun m hm => ⟨rfl, hm⟩) (by decide) ⟨0, by decide, by decide⟩
    (fun p => rfl) (fun p => rfl)

end MultiFactor
